import Mathlib

/-!
Verification of the state-tracker preprocessing module
(`deeppavlov/models/state_tracker/preprocessors.py`).

The Python module is embedded shallowly:

* per-token BIO tags are `List String`, utterances are `List String`;
* the slot vocabulary (an external bijection slot name <-> dense index) is a
  duplicate-free `List String`; the forward lookup is `List.indexOf`, the
  reverse lookup is positional indexing;
* a per-turn candidate set is an association list `CandMap`;
* numpy matrices become total functions `Nat -> Nat -> Nat` (integer matrices)
  and `Nat -> Nat -> Rat` (float score matrices; the module only ever stores
  and compares values such as `1.0` exactly, so rationals are a faithful model);
* fallible code returns `Except String`, carrying the Python exception text
  (apostrophes of the original messages are dropped, so that `doesn`t` becomes `does not`);
* the `while` loops walk an explicit cursor `i`; they are written with a fuel
  argument (initial fuel: the tag-sequence length, which bounds the number of
  loop iterations because the cursor strictly increases).
-/

/-- Python `s.startswith(p)`: the first `len(p)` characters of `s` are `p`. -/
def strStarts (s p : String) : Bool :=
  decide (s.data.take p.data.length = p.data)

/-- Whether an `Except` result is an exception. -/
def isError {α : Type} (e : Except String α) : Bool :=
  match e with
  | .error _ => true
  | .ok _ => false

/-- Source `tag2slot`: `O` carries no slot, a `B-`/`I-` prefixed tag
carries the slot name after the 2-character prefix, anything else raises
`Wrong tag format: <tag>`. -/
def tag2slot (tag : String) : Except String (Option String) :=
  if tag = "O" then .ok none
  else if strStarts tag "I-" || strStarts tag "B-" then .ok (some (tag.drop 2))
  else .error ("Wrong tag format: " ++ tag)

/-- A non-`O` tag lacking the 2-character BIO prefix. -/
def malformedTag (t : String) : Bool :=
  t != "O" && !(strStarts t "I-") && !(strStarts t "B-")

/-- Every tag is `O` or carries a `B-`/`I-` prefix. -/
def wellFormedTags (tags : List String) : Bool :=
  tags.all (fun t => t == "O" || strStarts t "I-" || strStarts t "B-")

/-- One utterance of `Delexicalizor.__call__`: the zipped word/tag pairs,
`O`-tagged words pass through, a tagged word becomes `#<slot>`, a malformed
tag raises (left to right, as the Python list comprehension evaluates). -/
def delexOne : List (String × String) → Except String (List String)
  | [] => .ok []
  | p :: rest =>
    match tag2slot p.2 with
    | .error e => .error e
    | .ok none => (delexOne rest).map (fun l => p.1 :: l)
    | .ok (some slot) => (delexOne rest).map (fun l => ("#" ++ slot) :: l)

/-- The batch loop of `Delexicalizor.__call__` over `zip(utterances, tags)`. -/
def delexBatch : List (List String × List String) → Except String (List (List String))
  | [] => .ok []
  | p :: rest =>
    match delexOne (p.1.zip p.2) with
    | .error e => .error e
    | .ok u => (delexBatch rest).map (fun us => u :: us)

/-- Batch entry point `Delexicalizor.__call__`. -/
def delexicalizorCall (utterances tags : List (List String)) :
    Except String (List (List String)) :=
  delexBatch (utterances.zip tags)

/-- A per-turn candidate set: slot name -> ordered candidate values. -/
abbrev CandMap := List (String × List String)

/-- Python mapping lookup `candidates[slot]` as an `Option`. -/
def lookupC (cs : CandMap) (s : String) : Option (List String) :=
  (cs.find? (fun p => p.1 == s)).map (fun p => p.2)

/-- Integer matrix (`np.zeros(..., dtype=int)` etc.), as a total function;
cells outside the declared shape are simply never written nor read. -/
abbrev Mat := Nat → Nat → Nat

/-- Float score matrix, modelled over the rationals. -/
abbrev MatQ := Nat → Nat → Rat

/-- All-zero integer matrix. -/
def matZ : Mat := fun _ _ => 0

/-- All-zero score matrix. -/
def matQZ : MatQ := fun _ _ => 0

/-- Slice assignment `mat[r, lo:lo+len] = v`. -/
def fillRowRange (m : Mat) (r lo len v : Nat) : Mat :=
  fun r2 c => if r2 = r ∧ lo ≤ c ∧ c < lo + len then v else m r2 c

/-- Cell assignment `mat[r, c] = v` on an integer matrix. -/
def setCellN (m : Mat) (r c v : Nat) : Mat :=
  fun r2 c2 => if r2 = r ∧ c2 = c then v else m r2 c2

/-- Cell assignment `mat[r, c] = v` on a score matrix. -/
def setCellQ (m : MatQ) (r c : Nat) (v : Rat) : MatQ :=
  fun r2 c2 => if r2 = r ∧ c2 = c then v else m r2 c2

/-- Method `_slot2idx` (identical in `SlotsTokensMatrixBuilder` and
`SlotsValuesMatrixBuilder` up to quoting in the message): raise on a slot
missing from the vocabulary, else its dense index. -/
def slot2idx (slot_vocab : List String) (slot : String) : Except String Nat :=
  if slot ∈ slot_vocab then .ok (slot_vocab.indexOf slot)
  else .error ("Utterance slot " ++ slot ++ " does not match any slot from slot_vocab.")

/-- The inner `while` of the span scan: the number of consecutive tags equal to
`I-<slot>` starting at position `j` (fuel-driven; any fuel at least
`tags.length - j` gives the loop result). -/
def spanLenAux (tags : List String) (slot : String) (j fuel : Nat) : Nat :=
  match fuel with
  | 0 => 0
  | fuel' + 1 =>
    if j < tags.length then
      if tags.getD j "" = "I-" ++ slot then 1 + spanLenAux tags slot (j + 1) fuel' else 0
    else 0

/-- The outer `while` of `SlotsTokensMatrixBuilder.__call__`, stripped of the
matrix writes: it yields the extracted spans `(slot, start, length)`.  This is
the shared BIO span-extraction routine. -/
def scanTags (tags : List String) (i fuel : Nat) : Except String (List (String × Nat × Nat)) :=
  match fuel with
  | 0 => .ok []
  | fuel' + 1 =>
    if i < tags.length then
      match tag2slot (tags.getD i "") with
      | .error e => .error e
      | .ok none => scanTags tags (i + 1) fuel'
      | .ok (some slot) =>
        let L := 1 + spanLenAux tags slot (i + 1) tags.length
        match scanTags tags (i + L) fuel' with
        | .error e => .error e
        | .ok rest => .ok ((slot, i, L) :: rest)
    else .ok []

/-- BIO span extraction over a whole tag sequence. -/
def extractSpans (tags : List String) : Except String (List (String × Nat × Nat)) :=
  scanTags tags 0 tags.length

/-- The per-utterance loop of `SlotsTokensMatrixBuilder.__call__`, including
the matrix writes.  With a candidate set: the joined span text is resolved to
a candidate index and the whole span is filled with `index + 1` (checks in
source order: slot in candidates, value in candidates, slot in vocabulary).
Without one (`None`): a `1` is written at the span start only. -/
def buildLoop (slot_vocab : List String) (cands : Option CandMap) (utt tags : List String)
    (i fuel : Nat) (m : Mat) : Except String Mat :=
  match fuel with
  | 0 => .ok m
  | fuel' + 1 =>
    if i < tags.length then
      match tag2slot (tags.getD i "") with
      | .error e => .error e
      | .ok none => buildLoop slot_vocab cands utt tags (i + 1) fuel' m
      | .ok (some slot) =>
        let L := 1 + spanLenAux tags slot (i + 1) tags.length
        match cands with
        | some cs =>
          let slot_value := " ".intercalate ((utt.drop i).take L)
          match lookupC cs slot with
          | none => .error ("slot `" ++ slot ++ "` is not in candidates")
          | some vals =>
            if slot_value ∈ vals then
              match slot2idx slot_vocab slot with
              | .error e => .error e
              | .ok r =>
                buildLoop slot_vocab cands utt tags (i + L) fuel'
                  (fillRowRange m r i L (vals.indexOf slot_value + 1))
            else .error ("value `" ++ slot_value ++ "` of slot `" ++ slot ++ "` is not in candidates")
        | none =>
          match slot2idx slot_vocab slot with
          | .error e => .error e
          | .ok r => buildLoop slot_vocab cands utt tags (i + L) fuel' (setCellN m r i 1)
    else .ok m

/-- One utterance of `SlotsTokensMatrixBuilder.__call__` (the zero matrix has
shape `[len(slot_vocab), len(tags)]` in the source). -/
def buildTokensMatrix (slot_vocab : List String) (cands : Option CandMap)
    (utt tags : List String) : Except String Mat :=
  buildLoop slot_vocab cands utt tags 0 tags.length matZ

/-- The batch loop of `SlotsTokensMatrixBuilder.__call__` over
`zip(utterances, tags)`. -/
def buildBatch (slot_vocab : List String) (cs : Option CandMap) :
    List (List String × List String) → Except String (List Mat)
  | [] => .ok []
  | p :: rest =>
    match buildTokensMatrix slot_vocab cs p.1 p.2 with
    | .error e => .error e
    | .ok m => (buildBatch slot_vocab cs rest).map (fun ms => m :: ms)

/-- Entry point `SlotsTokensMatrixBuilder.__call__`: the candidate batch must have length
exactly 1 (the Python default argument `[[]]` corresponds to `[some []]`; a
batch element `None` requests the presence-mask mode). -/
def slotsTokensMatrixBuilderCall (slot_vocab : List String)
    (utterances tags : List (List String)) (candidates : List (Option CandMap)) :
    Except String (List Mat) :=
  match candidates with
  | [cs] => buildBatch slot_vocab cs (utterances.zip tags)
  | _ => .error "not implemented for candidates with length > 1"

/-- A `{slot, value, score?}` record consumed by `SlotsValuesMatrixBuilder`. -/
structure SlotRecord where
  slot : String
  value : String
  score : Option Rat

/-- Method `SlotsValuesMatrixBuilder._value2idx`: `candidates[slot]` first (a missing
slot key is a Python `KeyError`), then the candidate position of the value, or
`0` when the value is absent (no error). -/
def value2idx (slot value : String) (candidates : CandMap) : Except String Nat :=
  match lookupC candidates slot with
  | none => .error ("KeyError: " ++ slot)
  | some vals => if value ∈ vals then .ok (vals.indexOf value) else .ok 0

/-- Method `SlotsValuesMatrixBuilder._format_slot_dict` on a mapping input: each
`slot -> value` pair becomes a record without a score. -/
def formatSlotDict (x : List (String × String)) : List SlotRecord :=
  x.map (fun p => { slot := p.1, value := p.2, score := none })

/-- The per-utterance loop of `SlotsValuesMatrixBuilder.__call__`:
`mat[slot_idx, value_idx] = record.score or 1.0`. -/
def valuesOne (slot_vocab : List String) (cs : CandMap) :
    List SlotRecord → MatQ → Except String MatQ
  | [], m => .ok m
  | s :: rest, m =>
    match slot2idx slot_vocab s.slot with
    | .error e => .error e
    | .ok r =>
      match value2idx s.slot s.value cs with
      | .error e => .error e
      | .ok c => valuesOne slot_vocab cs rest (setCellQ m r c (s.score.getD 1))

/-- The batch loop of `SlotsValuesMatrixBuilder.__call__`. -/
def valuesBatch (slot_vocab : List String) (cs : CandMap) :
    List (List SlotRecord) → Except String (List MatQ)
  | [] => .ok []
  | u :: rest =>
    match valuesOne slot_vocab cs u matQZ with
    | .error e => .error e
    | .ok m => (valuesBatch slot_vocab cs rest).map (fun ms => m :: ms)

/-- Entry point `SlotsValuesMatrixBuilder.__call__`.  Here `maxNumValues` only fixes the matrix
shape `[len(slot_vocab), maxNumValues + 2]` in the source; the function model
carries it for the shape contract. -/
def slotsValuesMatrixBuilderCall (slot_vocab : List String) (maxNumValues : Nat)
    (slots : List (List SlotRecord)) (candidates : List CandMap) :
    Except String (List MatQ) :=
  match candidates with
  | [cs] => valuesBatch slot_vocab cs slots
  | _ =>
    -- the shape parameter plays no role in the cell semantics
    let _ := maxNumValues
    .error "not implemented for candidates with length > 1"

/-- Python dict assignment `d[k] = v` on an insertion-ordered dictionary. -/
def dictInsert (d : List (String × String)) (k v : String) : List (String × String) :=
  if d.any (fun p => p.1 == k) then d.map (fun p => if p.1 == k then (k, v) else p)
  else d ++ [(k, v)]

/-- Method `SlotsValuesMatrix2Dict._idx2value`: clamp an out-of-range index to 0, then
index the candidate list (`candidates[slot]` raises `KeyError` on a missing
slot, and indexing an empty list raises `IndexError`). -/
def idx2value (slot : String) (idx : Nat) (candidates : CandMap) : Except String String :=
  match lookupC candidates slot with
  | none => .error ("KeyError: " ++ slot)
  | some vals =>
    match vals[if idx < vals.length then idx else 0]? with
    | none => .error ("IndexError: " ++ slot)
    | some v => .ok v

/-- The `enumerate(slots_values)` loop of `SlotsValuesMatrix2Dict.__call__`:
position `slot_idx` is reverse-looked-up in the vocabulary (realised by
walking the vocabulary list alongside the vector), the clamped value is
computed, and the pair is stored unless the value is excluded. -/
def decodeLoop (cs : CandMap) (exclude : List String) :
    List String → List Nat → List (String × String) → Except String (List (String × String))
  | _, [], acc => .ok acc
  | [], _ :: _, _ => .error "KeyError: slot index is not in slot_vocab"
  | s :: voc, idx :: vec, acc =>
    match idx2value s idx cs with
    | .error e => .error e
    | .ok v => decodeLoop cs exclude voc vec (if v ∈ exclude then acc else dictInsert acc s v)

/-- Entry point `SlotsValuesMatrix2Dict.__call__`: length-1 candidate batch, one decoded
dictionary wrapped as a single-element batch. -/
def slotsValuesMatrix2DictCall (slot_vocab : List String) (exclude_values : List String)
    (slots_values : List Nat) (candidates : List CandMap) :
    Except String (List (List (String × String))) :=
  match candidates with
  | [cs] => (decodeLoop cs exclude_values slot_vocab slots_values []).map (fun d => [d])
  | _ => .error "not implemented for candidates with length > 1"

/-!
Specification-side definitions.  `specScanAux` is written from the words of
the specification (section 4.2): scan with a cursor, skip `O`, otherwise strip
the 2-character prefix, greedily extend while the next tag is literally
`I-<slot>`, emit `(slot, i, L)` and jump to `i + L`.  It is list-structured,
unlike the index-and-fuel loop of the source embedding, and the equivalence of
the two is proved below.
-/

/-- Greedy count of leading tags equal to `I-<slot>`. -/
def specTakeI (slot : String) : List String → Nat
  | [] => 0
  | t :: rest => if t = "I-" ++ slot then 1 + specTakeI slot rest else 0

/-- The span-extraction rule as the specification states it. -/
def specScanAux (i : Nat) (l : List String) : List (String × Nat × Nat) :=
  match l with
  | [] => []
  | t :: rest =>
    if t = "O" then specScanAux (i + 1) rest
    else
      let slot := t.drop 2
      let k := specTakeI slot rest
      (slot, i, 1 + k) :: specScanAux (i + 1 + k) (rest.drop k)
termination_by l.length
decreasing_by
  all_goals simp [List.length_drop]
  all_goals omega

/-- Spans of a whole tag sequence under the specification rule. -/
def specSpans (tags : List String) : List (String × Nat × Nat) :=
  specScanAux 0 tags

/-- The observed surface value of a span: its token texts joined with single
spaces (Python str.join over a single space on `utt[i:i+slot_len]`). -/
def spanValue (utt : List String) (sp : String × Nat × Nat) : String :=
  " ".intercalate ((utt.drop sp.2.1).take sp.2.2)

/-- Span-by-span restatement of the candidate branch of the index builder:
check the slot key, check the joined value, resolve the row, fill the span
columns with `candidate index + 1`. -/
def processSpans (slot_vocab : List String) (cs : CandMap) (utt : List String) :
    List (String × Nat × Nat) → Mat → Except String Mat
  | [], m => .ok m
  | sp :: rest, m =>
    match lookupC cs sp.1 with
    | none => .error ("slot `" ++ sp.1 ++ "` is not in candidates")
    | some vals =>
      if spanValue utt sp ∈ vals then
        match slot2idx slot_vocab sp.1 with
        | .error e => .error e
        | .ok r =>
          processSpans slot_vocab cs utt rest
            (fillRowRange m r sp.2.1 sp.2.2 (vals.indexOf (spanValue utt sp) + 1))
      else .error ("value `" ++ spanValue utt sp ++ "` of slot `" ++ sp.1 ++ "` is not in candidates")

/-- Span-by-span restatement of the mask branch of the index builder: a `1`
at the span start only. -/
def processSpansMask (slot_vocab : List String) :
    List (String × Nat × Nat) → Mat → Except String Mat
  | [], m => .ok m
  | sp :: rest, m =>
    match slot2idx slot_vocab sp.1 with
    | .error e => .error e
    | .ok r => processSpansMask slot_vocab rest (setCellN m r sp.2.1 1)

/-- All checks of the candidate branch succeed for a span. -/
def checksPass (slot_vocab : List String) (cs : CandMap) (utt : List String)
    (sp : String × Nat × Nat) : Prop :=
  ∃ vals r, lookupC cs sp.1 = some vals ∧ spanValue utt sp ∈ vals ∧
    slot2idx slot_vocab sp.1 = .ok r

/-- The cell `(r, c)` lies in the written region of a span in index mode. -/
def coversIdx (slot_vocab : List String) (sp : String × Nat × Nat) (r c : Nat) : Prop :=
  slot2idx slot_vocab sp.1 = .ok r ∧ sp.2.1 ≤ c ∧ c < sp.2.1 + sp.2.2

/-- The cell `(r, c)` is the single cell written by a span in mask mode. -/
def maskCovers (slot_vocab : List String) (sp : String × Nat × Nat) (r c : Nat) : Prop :=
  slot2idx slot_vocab sp.1 = .ok r ∧ c = sp.2.1

/-- The value the decoder produces for slot `s` from raw index `idx`: clamp
out-of-range indices to 0, then index the candidate list. -/
def clampVal (cs : CandMap) (s : String) (idx : Nat) : String :=
  match lookupC cs s with
  | some vals => vals.getD (if idx < vals.length then idx else 0) ""
  | none => ""

/-- Closed form of a successful decode, before the exclusion filter. -/
def decodedPairs (cs : CandMap) (voc : List String) (vec : List Nat) :
    List (String × String) :=
  (voc.zip vec).map (fun p => (p.1, clampVal cs p.1 p.2))

/-- The column at which `SlotsValuesMatrixBuilder` writes the score of a
`slot -> value` pair (its `_value2idx`, total on present slot keys). -/
def valCol (cs : CandMap) (s v : String) : Nat :=
  match lookupC cs s with
  | some vals => if v ∈ vals then vals.indexOf v else 0
  | none => 0

/-- The per-slot value-index vector obtained from a slot dict under the
index-builder convention (`SlotsTokensMatrixBuilder` writes
`candidate index + 1`; a slot absent from the dict keeps the zero of the
fresh matrix). -/
def dictToIdxVec (slot_vocab : List String) (cs : CandMap) (d : List (String × String)) :
    List Nat :=
  slot_vocab.map (fun s =>
    match List.lookup s d with
    | some v => valCol cs s v + 1
    | none => 0)

/-- The per-slot value-index vector obtained from a slot dict under the
score-builder convention (`SlotsValuesMatrixBuilder` writes at column
`candidate index`; a slot absent from the dict keeps the zero column). -/
def dictToScoreVec (slot_vocab : List String) (cs : CandMap) (d : List (String × String)) :
    List Nat :=
  slot_vocab.map (fun s =>
    match List.lookup s d with
    | some v => valCol cs s v
    | none => 0)

/-- The matrix produced for the worked example of the specification. -/
def exMatC4 : Mat := fillRowRange matZ 0 2 2 1

/-! ### Basic facts about the scan -/

lemma drop_eq_getD_cons {tags : List String} {i : Nat} (h : i < tags.length) :
    tags.drop i = tags.getD i "" :: tags.drop (i + 1) := by
  rw [List.getD_eq_getElem _ _ h]
  exact List.drop_eq_getElem_cons h

lemma getD_mem_of_lt {tags : List String} {i : Nat} (h : i < tags.length) :
    tags.getD i "" ∈ tags := by
  rw [List.getD_eq_getElem _ _ h]
  exact List.getElem_mem h

lemma specScanAux_nil (i : Nat) : specScanAux i [] = [] := by
  rw [specScanAux]

lemma specScanAux_cons (i : Nat) (t : String) (rest : List String) :
    specScanAux i (t :: rest) =
      if t = "O" then specScanAux (i + 1) rest
      else
        (t.drop 2, i, 1 + specTakeI (t.drop 2) rest) ::
          specScanAux (i + 1 + specTakeI (t.drop 2) rest) (rest.drop (specTakeI (t.drop 2) rest)) := by
  rw [specScanAux]

lemma specTakeI_le (slot : String) (l : List String) : specTakeI slot l ≤ l.length := by
  induction l with
  | nil => simp [specTakeI]
  | cons t rest ih =>
    simp only [specTakeI, List.length_cons]
    split
    · omega
    · omega

lemma spanLenAux_eq_specTakeI (tags : List String) (slot : String) :
    ∀ fuel j, tags.length - j ≤ fuel →
      spanLenAux tags slot j fuel = specTakeI slot (tags.drop j) := by
  intro fuel
  induction fuel with
  | zero =>
    intro j h
    have hj : tags.length ≤ j := by omega
    simp [spanLenAux, List.drop_eq_nil_of_le hj, specTakeI]
  | succ fuel ih =>
    intro j h
    by_cases hj : j < tags.length
    · rw [drop_eq_getD_cons hj]
      by_cases he : tags.getD j "" = "I-" ++ slot
      · simp only [spanLenAux, hj, if_pos rfl, if_true, he, specTakeI,
          ih (j + 1) (by omega)]
      · simp only [spanLenAux, hj, if_true, he, if_false, specTakeI]
    · have hj2 : tags.length ≤ j := by omega
      simp [spanLenAux, hj, List.drop_eq_nil_of_le hj2, specTakeI]

lemma spanLenAux_interior (tags : List String) (slot : String) :
    ∀ fuel j m, m < spanLenAux tags slot j fuel → tags.getD (j + m) "" = "I-" ++ slot := by
  intro fuel
  induction fuel with
  | zero => intro j m h; simp [spanLenAux] at h
  | succ fuel ih =>
    intro j m h
    simp only [spanLenAux] at h
    split at h
    · split at h
      · next he =>
        match m with
        | 0 => simpa using he
        | m' + 1 =>
          have hrw : j + (m' + 1) = (j + 1) + m' := by omega
          rw [hrw]
          exact ih (j + 1) m' (by omega)
      · omega
    · omega

lemma wf_cases {tags : List String} (hwf : wellFormedTags tags = true)
    {t : String} (ht : t ∈ tags) :
    t = "O" ∨ strStarts t "I-" = true ∨ strStarts t "B-" = true := by
  have := (List.all_eq_true.mp hwf) t ht
  simp only [Bool.or_eq_true, beq_iff_eq] at this
  tauto

lemma tag2slot_of_starts {t : String}
    (h : strStarts t "I-" = true ∨ strStarts t "B-" = true) (hO : t ≠ "O") :
    tag2slot t = .ok (some (t.drop 2)) := by
  simp only [tag2slot, if_neg hO]
  rcases h with h | h <;> simp [h]

lemma scanTags_eq_spec {tags : List String} (hwf : wellFormedTags tags = true) :
    ∀ fuel i, tags.length - i ≤ fuel →
      scanTags tags i fuel = .ok (specScanAux i (tags.drop i)) := by
  intro fuel
  induction fuel with
  | zero =>
    intro i h
    have hi : tags.length ≤ i := by omega
    simp [scanTags, List.drop_eq_nil_of_le hi, specScanAux_nil]
  | succ fuel ih =>
    intro i h
    by_cases hi : i < tags.length
    · rw [drop_eq_getD_cons hi]
      have hmem := getD_mem_of_lt hi
      rcases wf_cases hwf hmem with hO | hs
      · simp only [scanTags, hi, if_true, hO, tag2slot, if_pos rfl,
          specScanAux_cons, ih (i + 1) (by omega)]
      · have hO : tags.getD i "" ≠ "O" := by
          rcases hs with hs | hs <;>
          · intro hc
            rw [hc] at hs
            exact absurd hs (by decide)
        rw [specScanAux_cons]
        rw [if_neg hO]
        simp only [scanTags, hi, if_true, tag2slot_of_starts hs hO]
        rw [spanLenAux_eq_specTakeI tags _ tags.length (i + 1) (by omega)]
        rw [ih (i + (1 + specTakeI ((tags.getD i "").drop 2) (tags.drop (i + 1))))
          (by omega)]
        rw [List.drop_drop]
        have hk : i + (1 + specTakeI ((tags.getD i "").drop 2) (tags.drop (i + 1))) =
            i + 1 + specTakeI ((tags.getD i "").drop 2) (tags.drop (i + 1)) := by omega
        rw [hk]
    · have hi2 : tags.length ≤ i := by omega
      simp [scanTags, hi, List.drop_eq_nil_of_le hi2, specScanAux_nil]

/-- Under well-formed tags the source span extraction computes exactly the
specification rule. -/
lemma extractSpans_eq_spec {tags : List String} (hwf : wellFormedTags tags = true) :
    extractSpans tags = .ok (specSpans tags) := by
  have := scanTags_eq_spec hwf tags.length 0 (by omega)
  simpa [extractSpans, specSpans] using this

/-! ### Bridging the interleaved builder loop with span-wise processing -/

lemma buildLoop_eq_processSpans {tags : List String} (hwf : wellFormedTags tags = true)
    (slot_vocab : List String) (cs : CandMap) (utt : List String) :
    ∀ fuel i m, tags.length - i ≤ fuel →
      buildLoop slot_vocab (some cs) utt tags i fuel m =
        processSpans slot_vocab cs utt (specScanAux i (tags.drop i)) m := by
  intro fuel
  induction fuel with
  | zero =>
    intro i m h
    have hi : tags.length ≤ i := by omega
    simp [buildLoop, List.drop_eq_nil_of_le hi, specScanAux_nil, processSpans]
  | succ fuel ih =>
    intro i m h
    by_cases hi : i < tags.length
    · rw [drop_eq_getD_cons hi]
      have hmem := getD_mem_of_lt hi
      rcases wf_cases hwf hmem with hO | hs
      · simp only [buildLoop, hi, if_true, hO, tag2slot, if_pos rfl,
          specScanAux_cons, ih (i + 1) m (by omega)]
      · have hO : tags.getD i "" ≠ "O" := by
          rcases hs with hs | hs <;>
          · intro hc
            rw [hc] at hs
            exact absurd hs (by decide)
        rw [specScanAux_cons]
        rw [if_neg hO]
        simp only [buildLoop, hi, if_true, tag2slot_of_starts hs hO]
        rw [spanLenAux_eq_specTakeI tags _ tags.length (i + 1) (by omega)]
        simp only [processSpans, spanValue]
        cases hlk : lookupC cs ((tags.getD i "").drop 2) with
        | none => rfl
        | some vals =>
          dsimp only
          by_cases hv :
              " ".intercalate
                ((utt.drop i).take (1 + specTakeI ((tags.getD i "").drop 2) (tags.drop (i + 1)))) ∈ vals
          · rw [if_pos hv, if_pos hv]
            cases hsi : slot2idx slot_vocab ((tags.getD i "").drop 2) with
            | error e => rfl
            | ok r =>
              dsimp only
              rw [ih (i + (1 + specTakeI ((tags.getD i "").drop 2) (tags.drop (i + 1)))) _
                (by omega)]
              rw [List.drop_drop]
              have hk : i + (1 + specTakeI ((tags.getD i "").drop 2) (tags.drop (i + 1))) =
                  i + 1 + specTakeI ((tags.getD i "").drop 2) (tags.drop (i + 1)) := by omega
              rw [hk]
          · rw [if_neg hv, if_neg hv]
    · have hi2 : tags.length ≤ i := by omega
      simp [buildLoop, hi, List.drop_eq_nil_of_le hi2, specScanAux_nil, processSpans]

lemma buildLoop_eq_processSpansMask {tags : List String} (hwf : wellFormedTags tags = true)
    (slot_vocab : List String) (utt : List String) :
    ∀ fuel i m, tags.length - i ≤ fuel →
      buildLoop slot_vocab none utt tags i fuel m =
        processSpansMask slot_vocab (specScanAux i (tags.drop i)) m := by
  intro fuel
  induction fuel with
  | zero =>
    intro i m h
    have hi : tags.length ≤ i := by omega
    simp [buildLoop, List.drop_eq_nil_of_le hi, specScanAux_nil, processSpansMask]
  | succ fuel ih =>
    intro i m h
    by_cases hi : i < tags.length
    · rw [drop_eq_getD_cons hi]
      have hmem := getD_mem_of_lt hi
      rcases wf_cases hwf hmem with hO | hs
      · simp only [buildLoop, hi, if_true, hO, tag2slot, if_pos rfl,
          specScanAux_cons, ih (i + 1) m (by omega)]
      · have hO : tags.getD i "" ≠ "O" := by
          rcases hs with hs | hs <;>
          · intro hc
            rw [hc] at hs
            exact absurd hs (by decide)
        rw [specScanAux_cons]
        rw [if_neg hO]
        simp only [buildLoop, hi, if_true, tag2slot_of_starts hs hO]
        rw [spanLenAux_eq_specTakeI tags _ tags.length (i + 1) (by omega)]
        simp only [processSpansMask]
        cases hsi : slot2idx slot_vocab ((tags.getD i "").drop 2) with
        | error e => rfl
        | ok r =>
          dsimp only
          rw [ih (i + (1 + specTakeI ((tags.getD i "").drop 2) (tags.drop (i + 1)))) _
            (by omega)]
          rw [List.drop_drop]
          have hk : i + (1 + specTakeI ((tags.getD i "").drop 2) (tags.drop (i + 1))) =
              i + 1 + specTakeI ((tags.getD i "").drop 2) (tags.drop (i + 1)) := by omega
          rw [hk]
    · have hi2 : tags.length ≤ i := by omega
      simp [buildLoop, hi, List.drop_eq_nil_of_le hi2, specScanAux_nil, processSpansMask]

/-- Under well-formed tags the index-mode builder is span-wise processing of
the specification spans, started on the zero matrix. -/
lemma buildTokensMatrix_eq_processSpans {tags : List String}
    (hwf : wellFormedTags tags = true) (slot_vocab : List String) (cs : CandMap)
    (utt : List String) :
    buildTokensMatrix slot_vocab (some cs) utt tags =
      processSpans slot_vocab cs utt (specSpans tags) matZ := by
  have := buildLoop_eq_processSpans hwf slot_vocab cs utt tags.length 0 matZ (by omega)
  simpa [buildTokensMatrix, specSpans] using this

/-- Under well-formed tags the mask-mode builder is span-wise mask processing
of the specification spans, started on the zero matrix. -/
lemma buildTokensMatrix_eq_processSpansMask {tags : List String}
    (hwf : wellFormedTags tags = true) (slot_vocab : List String) (utt : List String) :
    buildTokensMatrix slot_vocab none utt tags =
      processSpansMask slot_vocab (specSpans tags) matZ := by
  have := buildLoop_eq_processSpansMask hwf slot_vocab utt tags.length 0 matZ (by omega)
  simpa [buildTokensMatrix, specSpans] using this

/-! ### Geometry of the extracted spans -/

lemma specScanAux_bounds :
    ∀ (n : Nat) (l : List String) (i : Nat), l.length ≤ n →
      ∀ sp ∈ specScanAux i l, i ≤ sp.2.1 ∧ sp.2.1 + sp.2.2 ≤ i + l.length ∧ 1 ≤ sp.2.2 := by
  intro n
  induction n with
  | zero =>
    intro l i h sp hsp
    have : l = [] := List.length_eq_zero.mp (by omega)
    subst this
    simp [specScanAux_nil] at hsp
  | succ n ih =>
    intro l i h sp hsp
    match l with
    | [] => simp [specScanAux_nil] at hsp
    | t :: rest =>
      rw [specScanAux_cons] at hsp
      by_cases hO : t = "O"
      · rw [if_pos hO] at hsp
        have := ih rest (i + 1) (by simp only [List.length_cons] at h; omega) sp hsp
        simp only [List.length_cons]
        omega
      · rw [if_neg hO] at hsp
        simp only [List.mem_cons] at hsp
        have hkle := specTakeI_le (t.drop 2) rest
        rcases hsp with rfl | hsp
        · simp only [List.length_cons]
          omega
        · have hlen : (rest.drop (specTakeI (t.drop 2) rest)).length ≤ n := by
            simp only [List.length_drop]
            have : rest.length ≤ n := by simp only [List.length_cons] at h; omega
            omega
          have := ih (rest.drop (specTakeI (t.drop 2) rest))
            (i + 1 + specTakeI (t.drop 2) rest) hlen sp hsp
          simp only [List.length_drop] at this
          simp only [List.length_cons]
          omega

lemma specScanAux_pairwise :
    ∀ (n : Nat) (l : List String) (i : Nat), l.length ≤ n →
      (specScanAux i l).Pairwise (fun p q => p.2.1 + p.2.2 ≤ q.2.1) := by
  intro n
  induction n with
  | zero =>
    intro l i h
    have : l = [] := List.length_eq_zero.mp (by omega)
    subst this
    simp [specScanAux_nil]
  | succ n ih =>
    intro l i h
    match l with
    | [] => simp [specScanAux_nil]
    | t :: rest =>
      rw [specScanAux_cons]
      by_cases hO : t = "O"
      · rw [if_pos hO]
        exact ih rest (i + 1) (by simp only [List.length_cons] at h; omega)
      · rw [if_neg hO]
        have hrest : rest.length ≤ n := by simp only [List.length_cons] at h; omega
        have hlen : (rest.drop (specTakeI (t.drop 2) rest)).length ≤ n := by
          simp only [List.length_drop]
          omega
        refine List.Pairwise.cons ?_ (ih _ _ hlen)
        intro q hq
        have := specScanAux_bounds n (rest.drop (specTakeI (t.drop 2) rest))
          (i + 1 + specTakeI (t.drop 2) rest) hlen q hq
        simp only [List.length_drop] at this
        have hkle := specTakeI_le (t.drop 2) rest
        dsimp only
        omega

/-- The spans of one utterance, bounds at top level. -/
lemma specSpans_bounds {tags : List String} :
    ∀ sp ∈ specSpans tags, sp.2.1 + sp.2.2 ≤ tags.length ∧ 1 ≤ sp.2.2 := by
  intro sp hsp
  have := specScanAux_bounds tags.length tags 0 (by omega) sp hsp
  omega

/-- The spans of one utterance are pairwise column-disjoint and ordered. -/
lemma specSpans_pairwise {tags : List String} :
    (specSpans tags).Pairwise (fun p q => p.2.1 + p.2.2 ≤ q.2.1) :=
  specScanAux_pairwise tags.length tags 0 (by omega)

lemma specScanAux_ne_nil :
    ∀ (l : List String) (i : Nat), (∃ t ∈ l, t ≠ "O") → specScanAux i l ≠ [] := by
  intro l
  induction l with
  | nil => intro i h; rcases h with ⟨t, ht, _⟩; simp at ht
  | cons t rest ih =>
    intro i h
    rw [specScanAux_cons]
    by_cases hO : t = "O"
    · rw [if_pos hO]
      rcases h with ⟨u, hu, hne⟩
      rcases List.mem_cons.mp hu with rfl | hu
    
      · exact absurd hO hne
      · exact ih (i + 1) ⟨u, hu, hne⟩
    · rw [if_neg hO]
      simp

/-! ### Cell-level characterisation of span processing -/

lemma processSpans_ok_checks (slot_vocab : List String) (cs : CandMap) (utt : List String) :
    ∀ spans m mat, processSpans slot_vocab cs utt spans m = .ok mat →
      ∀ sp ∈ spans, checksPass slot_vocab cs utt sp := by
  intro spans
  induction spans with
  | nil => intro m mat _ sp hsp; simp at hsp
  | cons hd rest ih =>
    intro m mat hok sp hsp
    simp only [processSpans] at hok
    cases hlk : lookupC cs hd.1 with
    | none => rw [hlk] at hok; exact absurd hok (by simp)
    | some vals =>
      rw [hlk] at hok
      dsimp only at hok
      by_cases hv : spanValue utt hd ∈ vals
      · rw [if_pos hv] at hok
        cases hsi : slot2idx slot_vocab hd.1 with
        | error e => rw [hsi] at hok; exact absurd hok (by simp)
        | ok r =>
          rw [hsi] at hok
          dsimp only at hok
          rcases List.mem_cons.mp hsp with rfl | hsp
          · exact ⟨vals, r, hlk, hv, hsi⟩
          · exact ih _ _ hok sp hsp
      · rw [if_neg hv] at hok
        exact absurd hok (by simp)

lemma processSpans_cell_nocover (slot_vocab : List String) (cs : CandMap) (utt : List String) :
    ∀ spans m mat r c, processSpans slot_vocab cs utt spans m = .ok mat →
      (∀ sp ∈ spans, ¬ coversIdx slot_vocab sp r c) → mat r c = m r c := by
  intro spans
  induction spans with
  | nil => intro m mat r c hok _; simp only [processSpans] at hok; cases hok; rfl
  | cons hd rest ih =>
    intro m mat r c hok hnc
    simp only [processSpans] at hok
    cases hlk : lookupC cs hd.1 with
    | none => rw [hlk] at hok; exact absurd hok (by simp)
    | some vals =>
      rw [hlk] at hok
      dsimp only at hok
      by_cases hv : spanValue utt hd ∈ vals
      · rw [if_pos hv] at hok
        cases hsi : slot2idx slot_vocab hd.1 with
        | error e => rw [hsi] at hok; exact absurd hok (by simp)
        | ok r0 =>
          rw [hsi] at hok
          dsimp only at hok
          have hrest := ih _ _ r c hok (fun sp hsp => hnc sp (List.mem_cons_of_mem hd hsp))
          rw [hrest]
          have hhd := hnc hd (List.mem_cons_self hd rest)
          simp only [fillRowRange]
          rw [if_neg ?_]
          intro ⟨he, h1, h2⟩
          exact hhd ⟨by rw [he]; exact hsi, h1, h2⟩
      · rw [if_neg hv] at hok
        exact absurd hok (by simp)

lemma processSpans_cell_cover (slot_vocab : List String) (cs : CandMap) (utt : List String) :
    ∀ spans m mat,
      spans.Pairwise (fun p q => p.2.1 + p.2.2 ≤ q.2.1) →
      processSpans slot_vocab cs utt spans m = .ok mat →
      ∀ sp ∈ spans, ∀ vals r, lookupC cs sp.1 = some vals →
        slot2idx slot_vocab sp.1 = .ok r →
        ∀ c, sp.2.1 ≤ c → c < sp.2.1 + sp.2.2 →
          mat r c = vals.indexOf (spanValue utt sp) + 1 := by
  intro spans
  induction spans with
  | nil => intro m mat _ _ sp hsp; simp at hsp
  | cons hd rest ih =>
    intro m mat hpw hok sp hsp vals r hlk2 hsi2 c hc1 hc2
    have hpw' := List.pairwise_cons.mp hpw
    simp only [processSpans] at hok
    cases hlk : lookupC cs hd.1 with
    | none => rw [hlk] at hok; exact absurd hok (by simp)
    | some vals0 =>
      rw [hlk] at hok
      dsimp only at hok
      by_cases hv : spanValue utt hd ∈ vals0
      · rw [if_pos hv] at hok
        cases hsi : slot2idx slot_vocab hd.1 with
        | error e => rw [hsi] at hok; exact absurd hok (by simp)
        | ok r0 =>
          rw [hsi] at hok
          dsimp only at hok
          rcases List.mem_cons.mp hsp with rfl | hsp
          · -- the covering span is the head; no later span touches column c
            have hvals : vals0 = vals := by rw [hlk] at hlk2; exact Option.some.inj hlk2
            have hr : r0 = r := by
              rw [hsi] at hsi2
              exact Except.ok.inj hsi2
            subst hvals hr
            have hnc : ∀ q ∈ rest, ¬ coversIdx slot_vocab q r0 c := by
              intro q hq ⟨_, hq1, _⟩
              have := hpw'.1 q hq
              omega
            rw [processSpans_cell_nocover slot_vocab cs utt rest _ _ r0 c hok hnc]
            simp [fillRowRange, hc1, hc2]
          · exact ih _ _ hpw'.2 hok sp hsp vals r hlk2 hsi2 c hc1 hc2
      · rw [if_neg hv] at hok
        exact absurd hok (by simp)

lemma processSpansMask_cell_nocover (slot_vocab : List String) :
    ∀ spans m mat r c, processSpansMask slot_vocab spans m = .ok mat →
      (∀ sp ∈ spans, ¬ maskCovers slot_vocab sp r c) → mat r c = m r c := by
  intro spans
  induction spans with
  | nil => intro m mat r c hok _; simp only [processSpansMask] at hok; cases hok; rfl
  | cons hd rest ih =>
    intro m mat r c hok hnc
    simp only [processSpansMask] at hok
    cases hsi : slot2idx slot_vocab hd.1 with
    | error e => rw [hsi] at hok; exact absurd hok (by simp)
    | ok r0 =>
      rw [hsi] at hok
      dsimp only at hok
      have hrest := ih _ _ r c hok (fun sp hsp => hnc sp (List.mem_cons_of_mem hd hsp))
      rw [hrest]
      have hhd := hnc hd (List.mem_cons_self hd rest)
      simp only [setCellN]
      rw [if_neg ?_]
      intro ⟨he, h1⟩
      exact hhd ⟨by rw [he]; exact hsi, h1⟩

lemma processSpansMask_cell_cover (slot_vocab : List String) :
    ∀ spans m mat,
      spans.Pairwise (fun p q => p.2.1 + p.2.2 ≤ q.2.1) →
      (∀ sp ∈ spans, 1 ≤ sp.2.2) →
      processSpansMask slot_vocab spans m = .ok mat →
      ∀ sp ∈ spans, ∀ r, slot2idx slot_vocab sp.1 = .ok r →
        mat r sp.2.1 = 1 := by
  intro spans
  induction spans with
  | nil => intro m mat _ _ _ sp hsp; simp at hsp
  | cons hd rest ih =>
    intro m mat hpw hlen hok sp hsp r hsi2
    have hpw' := List.pairwise_cons.mp hpw
    simp only [processSpansMask] at hok
    cases hsi : slot2idx slot_vocab hd.1 with
    | error e => rw [hsi] at hok; exact absurd hok (by simp)
    | ok r0 =>
      rw [hsi] at hok
      dsimp only at hok
      rcases List.mem_cons.mp hsp with rfl | hsp
      · have hr : r0 = r := by
          rw [hsi] at hsi2
          exact Except.ok.inj hsi2
        subst hr
        have hnc : ∀ q ∈ rest, ¬ maskCovers slot_vocab q r0 sp.2.1 := by
          intro q hq ⟨_, hq1⟩
          have h1 := hpw'.1 q hq
          have h2 := hlen sp (List.mem_cons_self sp rest)
          omega
        rw [processSpansMask_cell_nocover slot_vocab rest _ _ r0 sp.2.1 hok hnc]
        simp [setCellN]
      · exact ih _ _ hpw'.2 (fun q hq => hlen q (List.mem_cons_of_mem hd hq)) hok sp hsp r hsi2

lemma processSpansMask_ok_rows (slot_vocab : List String) :
    ∀ spans m mat, processSpansMask slot_vocab spans m = .ok mat →
      ∀ sp ∈ spans, ∃ r, slot2idx slot_vocab sp.1 = .ok r := by
  intro spans
  induction spans with
  | nil => intro m mat _ sp hsp; simp at hsp
  | cons hd rest ih =>
    intro m mat hok sp hsp
    simp only [processSpansMask] at hok
    cases hsi : slot2idx slot_vocab hd.1 with
    | error e => rw [hsi] at hok; exact absurd hok (by simp)
    | ok r0 =>
      rw [hsi] at hok
      dsimp only at hok
      rcases List.mem_cons.mp hsp with rfl | hsp
      · exact ⟨r0, hsi⟩
      · exact ih _ _ hok sp hsp

/-- Spans whose checks all pass are processed through, leaving some
intermediate matrix. -/
lemma processSpans_append_of_checks (slot_vocab : List String) (cs : CandMap)
    (utt : List String) :
    ∀ pre rest m, (∀ p ∈ pre, checksPass slot_vocab cs utt p) →
      ∃ m2, processSpans slot_vocab cs utt (pre ++ rest) m =
        processSpans slot_vocab cs utt rest m2 := by
  intro pre
  induction pre with
  | nil => intro rest m _; exact ⟨m, rfl⟩
  | cons hd tl ih =>
    intro rest m hcp
    rcases hcp hd (List.mem_cons_self hd tl) with ⟨vals, r, hlk, hv, hsi⟩
    simp only [List.cons_append, processSpans, hlk]
    rw [if_pos hv, hsi]
    exact ih rest _ (fun p hp => hcp p (List.mem_cons_of_mem hd hp))

/-- A span whose slot is missing from the candidate set stops processing with
the slot error. -/
lemma processSpans_error_slot (slot_vocab : List String) (cs : CandMap)
    (utt : List String) (sp : String × Nat × Nat) (post : List (String × Nat × Nat))
    (m : Mat) (hlk : lookupC cs sp.1 = none) :
    processSpans slot_vocab cs utt (sp :: post) m =
      .error ("slot `" ++ sp.1 ++ "` is not in candidates") := by
  simp only [processSpans, hlk]

/-- A span whose joined value is missing from its slot candidates stops
processing with the value error. -/
lemma processSpans_error_value (slot_vocab : List String) (cs : CandMap)
    (utt : List String) (sp : String × Nat × Nat) (post : List (String × Nat × Nat))
    (m : Mat) (vals : List String) (hlk : lookupC cs sp.1 = some vals)
    (hv : spanValue utt sp ∉ vals) :
    processSpans slot_vocab cs utt (sp :: post) m =
      .error ("value `" ++ spanValue utt sp ++ "` of slot `" ++ sp.1 ++ "` is not in candidates") := by
  simp only [processSpans, hlk]
  rw [if_neg hv]

/-! ### Malformed tags -/

lemma malformedTag_iff {t : String} :
    malformedTag t = true ↔
      t ≠ "O" ∧ strStarts t "I-" = false ∧ strStarts t "B-" = false := by
  simp only [malformedTag, Bool.and_eq_true, bne_iff_ne, Bool.not_eq_true']
  tauto

lemma tag2slot_malformed {t : String} (h : malformedTag t = true) :
    tag2slot t = .error ("Wrong tag format: " ++ t) := by
  rcases malformedTag_iff.mp h with ⟨hO, hI, hB⟩
  simp [tag2slot, hO, hI, hB]

lemma malformedTag_O : malformedTag "O" = false := by decide

lemma not_malformed_cases {t : String} (h : malformedTag t = false) :
    t = "O" ∨ strStarts t "I-" = true ∨ strStarts t "B-" = true := by
  simp only [malformedTag, Bool.and_eq_false_iff, bne_eq_false_iff_eq,
    Bool.not_eq_false'] at h
  rcases h with h | h
  · rcases h with h | h
    · exact Or.inl h
    · exact Or.inr (Or.inl h)
  · exact Or.inr (Or.inr h)

lemma mem_getD_of_mem {tags : List String} {t : String} (h : t ∈ tags) :
    ∃ j, j < tags.length ∧ tags.getD j "" = t := by
  rcases List.mem_iff_getElem.mp h with ⟨j, hj, hg⟩
  exact ⟨j, hj, by rw [List.getD_eq_getElem _ _ hj]; exact hg⟩

lemma strStarts_append (p t : String) : strStarts (p ++ t) p = true := by
  simp only [strStarts, String.data_append, decide_eq_true_eq]
  exact List.take_left p.data t.data

lemma malformedTag_Iappend (t : String) : malformedTag ("I-" ++ t) = false := by
  simp [malformedTag, strStarts_append]

lemma buildLoop_malformed (slot_vocab : List String) (cands : Option CandMap)
    (utt tags : List String) :
    ∀ fuel i m, tags.length - i ≤ fuel →
      (∃ j, i ≤ j ∧ j < tags.length ∧ malformedTag (tags.getD j "") = true) →
      isError (buildLoop slot_vocab cands utt tags i fuel m) = true := by
  intro fuel
  induction fuel with
  | zero =>
    intro i m h hj
    rcases hj with ⟨j, hij, hjl, _⟩
    omega
  | succ fuel ih =>
    intro i m h hj
    rcases hj with ⟨j, hij, hjl, hjm⟩
    have hi : i < tags.length := by omega
    by_cases hm : malformedTag (tags.getD i "") = true
    · simp only [buildLoop, hi, if_true, tag2slot_malformed hm]
      rfl
    · have hmf : malformedTag (tags.getD i "") = false := by
        cases hmm : malformedTag (tags.getD i "") with
        | true => exact absurd hmm hm
        | false => rfl
      have hji : j ≠ i := by
        intro hji
        rw [hji] at hjm
        exact hm hjm
      rcases not_malformed_cases hmf with hO | hs
      · simp only [buildLoop, hi, if_true, hO, tag2slot, if_pos rfl]
        exact ih (i + 1) m (by omega) ⟨j, by omega, hjl, hjm⟩
      · have hO : tags.getD i "" ≠ "O" := by
          rcases hs with hs | hs <;>
          · intro hc
            rw [hc] at hs
            exact absurd hs (by decide)
        -- positions strictly inside the span carry `I-<slot>` tags, which are
        -- never malformed, so the offending index lies at or beyond `i + L`
        have hinterior : ∀ c, i < c →
            c < i + (1 + spanLenAux tags ((tags.getD i "").drop 2) (i + 1) tags.length) →
            tags.getD c "" = "I-" ++ (tags.getD i "").drop 2 := by
          intro c hc1 hc2
          have hlt : c - (i + 1) <
              spanLenAux tags ((tags.getD i "").drop 2) (i + 1) tags.length := by
            omega
          have := spanLenAux_interior tags ((tags.getD i "").drop 2) tags.length (i + 1)
            (c - (i + 1)) hlt
          have hcr : i + 1 + (c - (i + 1)) = c := by omega
          rw [hcr] at this
          exact this
        have hjL : i + (1 + spanLenAux tags ((tags.getD i "").drop 2) (i + 1) tags.length) ≤ j := by
          by_contra hlt
          push_neg at hlt
          have hj2 : i < j := by
            rcases Nat.lt_or_ge i j with hx | hx
            · exact hx
            · omega
          have heq := hinterior j hj2 (by omega)
          rw [heq] at hjm
          rw [malformedTag_Iappend] at hjm
          exact absurd hjm (by simp)
        simp only [buildLoop, hi, if_true, tag2slot_of_starts hs hO]
        cases cands with
        | none =>
          dsimp only
          cases hsi : slot2idx slot_vocab ((tags.getD i "").drop 2) with
          | error e => rfl
          | ok r =>
            dsimp only
            exact ih _ _ (by omega) ⟨j, by omega, hjl, hjm⟩
        | some cs =>
          dsimp only
          cases hlk : lookupC cs ((tags.getD i "").drop 2) with
          | none => rfl
          | some vals =>
            dsimp only
            by_cases hv : " ".intercalate ((utt.drop i).take
                (1 + spanLenAux tags ((tags.getD i "").drop 2) (i + 1) tags.length)) ∈ vals
            · rw [if_pos hv]
              cases hsi : slot2idx slot_vocab ((tags.getD i "").drop 2) with
              | error e => rfl
              | ok r =>
                dsimp only
                exact ih _ _ (by omega) ⟨j, by omega, hjl, hjm⟩
            · rw [if_neg hv]
              rfl

lemma scanTags_malformed (tags : List String) :
    ∀ fuel i, tags.length - i ≤ fuel →
      (∃ j, i ≤ j ∧ j < tags.length ∧ malformedTag (tags.getD j "") = true) →
      ∃ t, malformedTag t = true ∧
        scanTags tags i fuel = .error ("Wrong tag format: " ++ t) := by
  intro fuel
  induction fuel with
  | zero =>
    intro i h hj
    rcases hj with ⟨j, hij, hjl, _⟩
    omega
  | succ fuel ih =>
    intro i h hj
    rcases hj with ⟨j, hij, hjl, hjm⟩
    have hi : i < tags.length := by omega
    by_cases hm : malformedTag (tags.getD i "") = true
    · refine ⟨tags.getD i "", hm, ?_⟩
      simp only [scanTags, hi, if_true, tag2slot_malformed hm]
    · have hmf : malformedTag (tags.getD i "") = false := by
        cases hmm : malformedTag (tags.getD i "") with
        | true => exact absurd hmm hm
        | false => rfl
      have hji : j ≠ i := by
        intro hji
        rw [hji] at hjm
        exact hm hjm
      rcases not_malformed_cases hmf with hO | hs
      · simp only [scanTags, hi, if_true, hO, tag2slot, if_pos rfl]
        exact ih (i + 1) (by omega) ⟨j, by omega, hjl, hjm⟩
      · have hO : tags.getD i "" ≠ "O" := by
          rcases hs with hs | hs <;>
          · intro hc
            rw [hc] at hs
            exact absurd hs (by decide)
        have hinterior : ∀ c, i < c →
            c < i + (1 + spanLenAux tags ((tags.getD i "").drop 2) (i + 1) tags.length) →
            tags.getD c "" = "I-" ++ (tags.getD i "").drop 2 := by
          intro c hc1 hc2
          have hlt : c - (i + 1) <
              spanLenAux tags ((tags.getD i "").drop 2) (i + 1) tags.length := by
            omega
          have := spanLenAux_interior tags ((tags.getD i "").drop 2) tags.length (i + 1)
            (c - (i + 1)) hlt
          have hcr : i + 1 + (c - (i + 1)) = c := by omega
          rw [hcr] at this
          exact this
        have hjL : i + (1 + spanLenAux tags ((tags.getD i "").drop 2) (i + 1) tags.length) ≤ j := by
          by_contra hlt
          push_neg at hlt
          have hj2 : i < j := by
            rcases Nat.lt_or_ge i j with hx | hx
            · exact hx
            · omega
          have heq := hinterior j hj2 (by omega)
          rw [heq] at hjm
          rw [malformedTag_Iappend] at hjm
          exact absurd hjm (by simp)
        simp only [scanTags, hi, if_true, tag2slot_of_starts hs hO]
        rcases ih (i + (1 + spanLenAux tags ((tags.getD i "").drop 2) (i + 1) tags.length))
          (by omega) ⟨j, by omega, hjl, hjm⟩ with ⟨t, htm, hteq⟩
        refine ⟨t, htm, ?_⟩
        rw [hteq]

lemma extractSpans_malformed {tags : List String}
    (h : ∃ t ∈ tags, malformedTag t = true) :
    ∃ t, malformedTag t = true ∧
      extractSpans tags = .error ("Wrong tag format: " ++ t) := by
  rcases h with ⟨t, htm, ht⟩
  rcases mem_getD_of_mem htm with ⟨j, hjl, hje⟩
  exact scanTags_malformed tags tags.length 0 (by omega)
    ⟨j, by omega, hjl, by rw [hje]; exact ht⟩

lemma delexOne_malformed :
    ∀ pairs : List (String × String), (∃ p ∈ pairs, malformedTag p.2 = true) →
      ∃ t, malformedTag t = true ∧
        delexOne pairs = .error ("Wrong tag format: " ++ t) := by
  intro pairs
  induction pairs with
  | nil => intro h; rcases h with ⟨p, hp, _⟩; simp at hp
  | cons q rest ih =>
    intro h
    by_cases hm : malformedTag q.2 = true
    · refine ⟨q.2, hm, ?_⟩
      simp only [delexOne, tag2slot_malformed hm]
    · have hmf : malformedTag q.2 = false := by
        cases hmm : malformedTag q.2 with
        | true => exact absurd hmm hm
        | false => rfl
      have hrest : ∃ p ∈ rest, malformedTag p.2 = true := by
        rcases h with ⟨p, hp, hpm⟩
        rcases List.mem_cons.mp hp with rfl | hp
        · exact absurd hpm hm
        · exact ⟨p, hp, hpm⟩
      rcases ih hrest with ⟨t, htm, hteq⟩
      refine ⟨t, htm, ?_⟩
      rcases not_malformed_cases hmf with hO | hs
      · simp [delexOne, tag2slot, hO, hteq, Except.map]
      · have hO : q.2 ≠ "O" := by
          rcases hs with hs | hs <;>
          · intro hc
            rw [hc] at hs
            exact absurd hs (by decide)
        simp [delexOne, tag2slot_of_starts hs hO, hteq, Except.map]

lemma mem_zip_right :
    ∀ (l1 l2 : List String), l1.length = l2.length → ∀ t ∈ l2, ∃ w, (w, t) ∈ l1.zip l2 := by
  intro l1
  induction l1 with
  | nil =>
    intro l2 hlen t ht
    have : l2 = [] := List.length_eq_zero.mp (by simpa using hlen.symm)
    subst this
    simp at ht
  | cons w l1' ih =>
    intro l2 hlen t ht
    match l2 with
    | [] => simp at ht
    | u :: l2' =>
      rcases List.mem_cons.mp ht with rfl | ht
      · exact ⟨w, by simp [List.zip_cons_cons]⟩
      · rcases ih l2' (by simpa using hlen) t ht with ⟨w2, hw2⟩
        exact ⟨w2, by simp [List.zip_cons_cons, hw2]⟩

/-! ### The decoder loop -/

lemma dictInsert_append {d : List (String × String)} {k v : String}
    (h : ∀ q ∈ d, q.1 ≠ k) : dictInsert d k v = d ++ [(k, v)] := by
  have hany : d.any (fun p => p.1 == k) = false := by
    rw [List.any_eq_false]
    intro p hp
    simpa using h p hp
  simp [dictInsert, hany]

lemma idx2value_ok {cs : CandMap} {s : String} {idx : Nat} {vals : List String}
    (hlk : lookupC cs s = some vals) (hne : vals ≠ []) :
    idx2value s idx cs = .ok (vals.getD (if idx < vals.length then idx else 0) "") := by
  have hpos : 0 < vals.length := List.length_pos.mpr hne
  have hj : (if idx < vals.length then idx else 0) < vals.length := by
    split
    · assumption
    · exact hpos
  simp only [idx2value, hlk]
  rw [List.getElem?_eq_getElem hj]
  rw [List.getD_eq_getElem _ _ hj]

lemma decodeLoop_closed (cs : CandMap) (ex : List String) :
    ∀ (vec : List Nat) (voc : List String) (acc : List (String × String)),
      vec.length ≤ voc.length →
      (∀ p ∈ voc.zip vec, ∃ vals, lookupC cs p.1 = some vals ∧ vals ≠ []) →
      ((voc.zip vec).map Prod.fst).Nodup →
      (∀ p ∈ voc.zip vec, ∀ q ∈ acc, q.1 ≠ p.1) →
      decodeLoop cs ex voc vec acc =
        .ok (acc ++ (decodedPairs cs voc vec).filter (fun p => decide (p.2 ∉ ex))) := by
  intro vec
  induction vec with
  | nil =>
    intro voc acc _ _ _ _
    simp [decodeLoop, decodedPairs, List.zip_nil_right]
  | cons idx vec' ih =>
    intro voc acc hlen hgood hnd hfresh
    match voc with
    | [] => simp at hlen
    | s :: voc' =>
      rcases hgood (s, idx) (by simp [List.zip_cons_cons]) with ⟨vals, hlk, hne⟩
      have hval := @idx2value_ok cs s idx vals hlk hne
      simp only [decodeLoop, hval]
      have hclamp : clampVal cs s idx = vals.getD (if idx < vals.length then idx else 0) "" := by
        simp only [clampVal, hlk]
      have hzip : (s :: voc').zip (idx :: vec') = (s, idx) :: voc'.zip vec' :=
        List.zip_cons_cons
      have hnd' : s ∉ (voc'.zip vec').map Prod.fst ∧ ((voc'.zip vec').map Prod.fst).Nodup := by
        rw [hzip] at hnd
        simp only [List.map_cons] at hnd
        exact List.nodup_cons.mp hnd
      have hexp : decodedPairs cs (s :: voc') (idx :: vec') =
          (s, vals.getD (if idx < vals.length then idx else 0) "") ::
            decodedPairs cs voc' vec' := by
        simp only [decodedPairs, hzip, List.map_cons]
        rw [hclamp]
      by_cases hex : vals.getD (if idx < vals.length then idx else 0) "" ∈ ex
      · rw [if_pos hex]
        rw [ih voc' acc (by simpa using hlen)
          (fun p hp => hgood p (by rw [hzip]; exact List.mem_cons_of_mem _ hp))
          hnd'.2
          (fun p hp q hq => hfresh p (by rw [hzip]; exact List.mem_cons_of_mem _ hp) q hq)]
        rw [hexp]
        rw [List.filter_cons]
        have hcond : (decide ((s, vals.getD (if idx < vals.length then idx else 0) "").2 ∉ ex)) =
            false := by
          simp only [decide_eq_false_iff_not, Decidable.not_not]
          exact hex
        rw [hcond]
        simp
      · rw [if_neg hex]
        have hins : dictInsert acc s (vals.getD (if idx < vals.length then idx else 0) "") =
            acc ++ [(s, vals.getD (if idx < vals.length then idx else 0) "")] := by
          apply dictInsert_append
          intro q hq
          exact hfresh (s, idx) (by rw [hzip]; exact List.mem_cons_self _ _) q hq
        rw [hins]
        have hsfresh : ∀ p ∈ voc'.zip vec', p.1 ≠ s := by
          intro p hp hps
          exact hnd'.1 (by rw [← hps]; exact List.mem_map_of_mem Prod.fst hp)
        rw [ih voc' (acc ++ [(s, vals.getD (if idx < vals.length then idx else 0) "")])
          (by simpa using hlen)
          (fun p hp => hgood p (by rw [hzip]; exact List.mem_cons_of_mem _ hp))
          hnd'.2
          ?_]
        · rw [hexp]
          rw [List.filter_cons]
          have hcond : (decide ((s, vals.getD (if idx < vals.length then idx else 0) "").2 ∉ ex)) =
              true := by
            simp only [decide_eq_true_eq]
            exact hex
          rw [hcond]
          simp [List.append_assoc]
        · intro p hp q hq
          rcases List.mem_append.mp hq with hq | hq
          · exact hfresh p (by rw [hzip]; exact List.mem_cons_of_mem _ hp) q hq
          · simp only [List.mem_singleton] at hq
            subst hq
            exact fun hc => (hsfresh p hp) hc.symm

lemma decodeLoop_ok_exists (cs : CandMap) (ex : List String) :
    ∀ (vec : List Nat) (voc : List String) (acc : List (String × String)),
      vec.length ≤ voc.length →
      (∀ p ∈ voc.zip vec, ∃ vals, lookupC cs p.1 = some vals ∧ vals ≠ []) →
      ∃ d, decodeLoop cs ex voc vec acc = .ok d := by
  intro vec
  induction vec with
  | nil => intro voc acc _ _; exact ⟨acc, by cases voc <;> rfl⟩
  | cons idx vec' ih =>
    intro voc acc hlen hgood
    match voc with
    | [] => simp at hlen
    | s :: voc' =>
      rcases hgood (s, idx) (by simp [List.zip_cons_cons]) with ⟨vals, hlk, hne⟩
      have hval := @idx2value_ok cs s idx vals hlk hne
      simp only [decodeLoop, hval]
      exact ih voc' _ (by simpa using hlen)
        (fun p hp => hgood p (by rw [List.zip_cons_cons]; exact List.mem_cons_of_mem _ hp))

lemma decodeLoop_bad (cs : CandMap) (ex : List String) :
    ∀ (vec : List Nat) (voc : List String) (acc : List (String × String)),
      (∃ p ∈ voc.zip vec, lookupC cs p.1 = none ∨ lookupC cs p.1 = some []) →
      isError (decodeLoop cs ex voc vec acc) = true := by
  intro vec
  induction vec with
  | nil =>
    intro voc acc h
    rcases h with ⟨p, hp, _⟩
    rw [List.zip_nil_right] at hp
    simp at hp
  | cons idx vec' ih =>
    intro voc acc h
    match voc with
    | [] => rfl
    | s :: voc' =>
      rcases h with ⟨p, hp, hbad⟩
      rw [List.zip_cons_cons] at hp
      rcases List.mem_cons.mp hp with rfl | hp
      · rcases hbad with hbad | hbad
        · simp only [decodeLoop, idx2value, hbad]
          rfl
        · simp only [decodeLoop, idx2value, hbad]
          have : (if idx < ([] : List String).length then idx else 0) = 0 := by
            simp
          rw [this]
          rfl
      · cases hv : idx2value s idx cs with
        | error e => simp only [decodeLoop, hv]; rfl
        | ok v =>
          simp only [decodeLoop, hv]
          exact ih voc' _ ⟨p, hp, hbad⟩

/-! ### Dictionaries aligned with the vocabulary -/

lemma lookup_self_of_nodup :
    ∀ (d : List (String × String)), (d.map Prod.fst).Nodup →
      ∀ p ∈ d, List.lookup p.1 d = some p.2 := by
  intro d
  induction d with
  | nil => intro _ p hp; simp at hp
  | cons q rest ih =>
    intro hnd p hp
    simp only [List.map_cons] at hnd
    have hnd' := List.nodup_cons.mp hnd
    rcases List.mem_cons.mp hp with rfl | hp
    · simp [List.lookup]
    · have hne : p.1 ≠ q.1 := by
        intro hc
        exact hnd'.1 (by rw [← hc]; exact List.mem_map_of_mem Prod.fst hp)
      simp only [List.lookup]
      have hbeq : (p.1 == q.1) = false := by simp [hne]
      rw [hbeq]
      exact ih hnd'.2 p hp

lemma dictToScoreVec_aligned {cs : CandMap} :
    ∀ (d : List (String × String)), (d.map Prod.fst).Nodup →
      dictToScoreVec (d.map Prod.fst) cs d = d.map (fun p => valCol cs p.1 p.2) := by
  intro d hnd
  simp only [dictToScoreVec, List.map_map]
  apply List.map_congr_left
  intro p hp
  simp only [Function.comp_apply]
  rw [lookup_self_of_nodup d hnd p hp]

lemma valCol_of_mem {cs : CandMap} {s v : String} {vals : List String}
    (hlk : lookupC cs s = some vals) (hv : v ∈ vals) :
    valCol cs s v = vals.indexOf v := by
  simp only [valCol, hlk]
  rw [if_pos hv]

lemma clampVal_of_mem {cs : CandMap} {s v : String} {vals : List String}
    (hlk : lookupC cs s = some vals) (hv : v ∈ vals) :
    clampVal cs s (vals.indexOf v) = v := by
  have hlt : vals.indexOf v < vals.length := List.indexOf_lt_length.mpr hv
  simp only [clampVal, hlk]
  rw [if_pos hlt]
  rw [List.getD_eq_getElem _ _ hlt]
  exact List.getElem_indexOf hlt

/-! ### Batch wrappers and final helpers -/

lemma slotsTokensCall_one (slot_vocab : List String) (c : Option CandMap)
    (utt tags : List String) :
    slotsTokensMatrixBuilderCall slot_vocab [utt] [tags] [c] =
      match buildTokensMatrix slot_vocab c utt tags with
      | .error e => .error e
      | .ok m => .ok [m] := by
  simp only [slotsTokensMatrixBuilderCall, List.zip_cons_cons, List.zip_nil_right, buildBatch]
  cases buildTokensMatrix slot_vocab c utt tags <;> rfl

lemma map_fst_zip_sublist :
    ∀ (l1 : List String) (l2 : List Nat), ((l1.zip l2).map Prod.fst).Sublist l1 := by
  intro l1
  induction l1 with
  | nil => intro l2; simp
  | cons a l1' ih =>
    intro l2
    match l2 with
    | [] => simp
    | b :: l2' =>
      rw [List.zip_cons_cons, List.map_cons]
      exact List.Sublist.cons₂ a (ih l2')

lemma spec_spans_of_extract {tags : List String} {spans : List (String × Nat × Nat)}
    (hwf : wellFormedTags tags = true)
    (h : extractSpans tags = .ok spans) : specSpans tags = spans := by
  have h2 := extractSpans_eq_spec hwf
  rw [h] at h2
  exact (Except.ok.inj h2).symm

/-! ### Claims -/

/-- C1 (counterexample): the round trip fails as stated.  For the dict
`{city: "A"}` with candidates `city -> ["A","B"], food -> ["steak"]` and no
excluded values, the index-builder convention (`candidate index + 1`) encodes
to `[1, 0]`, which decodes to `{city: "B", food: "steak"}`, and even the
score-builder convention (`candidate index`) encodes to `[0, 0]`, which
decodes to `{city: "A", food: "steak"}`; neither equals the original dict. -/
theorem c1_counterexample :
    dictToIdxVec ["city", "food"] [("city", ["A", "B"]), ("food", ["steak"])]
      [("city", "A")] = [1, 0] ∧
    slotsValuesMatrix2DictCall ["city", "food"] [] [1, 0]
      [[("city", ["A", "B"]), ("food", ["steak"])]] =
      .ok [[("city", "B"), ("food", "steak")]] ∧
    (Except.ok [[("city", "B"), ("food", "steak")]] ≠
      (Except.ok [[("city", "A")]] : Except String (List (List (String × String))))) ∧
    dictToScoreVec ["city", "food"] [("city", ["A", "B"]), ("food", ["steak"])]
      [("city", "A")] = [0, 0] ∧
    slotsValuesMatrix2DictCall ["city", "food"] [] [0, 0]
      [[("city", ["A", "B"]), ("food", ["steak"])]] =
      .ok [[("city", "A"), ("food", "steak")]] ∧
    (Except.ok [[("city", "A"), ("food", "steak")]] ≠
      (Except.ok [[("city", "A")]] : Except String (List (List (String × String))))) := by
  refine ⟨by decide, by rfl, ?_, by decide, by rfl, ?_⟩
  · intro h
    exact absurd (Except.ok.inj h) (by decide)
  · intro h
    exact absurd (Except.ok.inj h) (by decide)

/-- C1 (amended): for a slot dict that assigns to *every* vocabulary slot (in
vocabulary order) a value present in that slot's candidate list and not in
`excludeValues`, encoding each slot to its score-builder column
(`candidate index`, without the `+1` of the index builder) and decoding with
the same length-1 candidate batch returns the original dict. -/
theorem c1_thm (cs : CandMap) (ex : List String) (d : List (String × String))
    (hnd : (d.map Prod.fst).Nodup)
    (hgood : ∀ p ∈ d, ∃ vals, lookupC cs p.1 = some vals ∧ p.2 ∈ vals ∧ p.2 ∉ ex) :
    slotsValuesMatrix2DictCall (d.map Prod.fst) ex
      (dictToScoreVec (d.map Prod.fst) cs d) [cs] = .ok [d] := by
  rw [dictToScoreVec_aligned d hnd]
  simp only [slotsValuesMatrix2DictCall]
  have hzip : (d.map Prod.fst).zip (d.map (fun p => valCol cs p.1 p.2)) =
      d.map (fun p => (p.1, valCol cs p.1 p.2)) := List.zip_map' _ _ d
  have hmem_of : ∀ p ∈ (d.map Prod.fst).zip (d.map (fun p => valCol cs p.1 p.2)),
      ∃ q ∈ d, p = (q.1, valCol cs q.1 q.2) := by
    intro p hp
    rw [hzip] at hp
    rcases List.mem_map.mp hp with ⟨q, hq, hpq⟩
    exact ⟨q, hq, hpq.symm⟩
  have hgood2 : ∀ p ∈ (d.map Prod.fst).zip (d.map (fun p => valCol cs p.1 p.2)),
      ∃ vals, lookupC cs p.1 = some vals ∧ vals ≠ [] := by
    intro p hp
    rcases hmem_of p hp with ⟨q, hq, rfl⟩
    rcases hgood q hq with ⟨vals, hlk, hv, _⟩
    exact ⟨vals, hlk, List.ne_nil_of_mem hv⟩
  have hnd2 : (((d.map Prod.fst).zip (d.map (fun p => valCol cs p.1 p.2))).map Prod.fst).Nodup := by
    rw [hzip, List.map_map]
    have : (Prod.fst ∘ fun p : String × String => (p.1, valCol cs p.1 p.2)) = Prod.fst := by
      funext p
      rfl
    rw [this]
    exact hnd
  rw [decodeLoop_closed cs ex (d.map (fun p => valCol cs p.1 p.2)) (d.map Prod.fst) []
    (by simp) hgood2 hnd2 (by simp)]
  have hpairs : decodedPairs cs (d.map Prod.fst) (d.map (fun p => valCol cs p.1 p.2)) = d := by
    simp only [decodedPairs, hzip, List.map_map]
    have : ∀ p ∈ d, ((fun p : String × Nat => (p.1, clampVal cs p.1 p.2)) ∘
        fun p : String × String => (p.1, valCol cs p.1 p.2)) p = p := by
      intro p hp
      rcases hgood p hp with ⟨vals, hlk, hv, _⟩
      simp only [Function.comp_apply]
      rw [valCol_of_mem hlk hv, clampVal_of_mem hlk hv]
    rw [List.map_congr_left this]
    simp
  rw [hpairs]
  have hfilter : d.filter (fun p => decide (p.2 ∉ ex)) = d := by
    rw [List.filter_eq_self]
    intro p hp
    rcases hgood p hp with ⟨_, _, _, hnex⟩
    simpa using hnex
  rw [hfilter]
  rfl

/-- C1 (witness): the amended round trip at the dict
`{city: "London", food: "steak"}`. -/
theorem c1_witness :
    slotsValuesMatrix2DictCall ["city", "food"] []
      (dictToScoreVec ["city", "food"]
        [("city", ["Paris Texas", "London"]), ("food", ["steak"])]
        [("city", "London"), ("food", "steak")])
      [[("city", ["Paris Texas", "London"]), ("food", ["steak"])]] =
      .ok [[("city", "London"), ("food", "steak")]] := by
  have h := c1_thm [("city", ["Paris Texas", "London"]), ("food", ["steak"])] []
    [("city", "London"), ("food", "steak")] (by decide) ?_
  · exact h
  · intro p hp
    rcases List.mem_cons.mp hp with rfl | hp
    · exact ⟨["Paris Texas", "London"], rfl, by decide, by decide⟩
    · rcases List.mem_cons.mp hp with rfl | hp
      · exact ⟨["steak"], rfl, by decide, by decide⟩
      · simp at hp

/-- C2 (counterexample): decoding `[1, 0]` with candidates
`city -> ["Paris Texas", "London"], food -> ["steak"]` maps the `city` row to
`London` (index 1), not to `Paris Texas` as the claim states. -/
theorem c2_counterexample :
    slotsValuesMatrix2DictCall ["city", "food"] [] [1, 0]
      [[("city", ["Paris Texas", "London"]), ("food", ["steak"])]] =
      .ok [[("city", "London"), ("food", "steak")]] ∧
    List.lookup "city" [("city", "London"), ("food", "steak")] = some "London" ∧
    (some "London" ≠ some ("Paris Texas" : String)) ∧
    slotsValuesMatrix2DictCall ["city", "food"] [] [1, 0]
      [[("city", ["Paris Texas", "London"]), ("food", ["steak"])]] ≠
      .ok [[("city", "Paris Texas"), ("food", "steak")]] := by
  refine ⟨by rfl, by decide, by decide, ?_⟩
  intro h
  have hL : slotsValuesMatrix2DictCall ["city", "food"] [] [1, 0]
      [[("city", ["Paris Texas", "London"]), ("food", ["steak"])]] =
      .ok [[("city", "London"), ("food", "steak")]] := rfl
  exact absurd (Except.ok.inj (hL.symm.trans h)) (by decide)

/-- C2 (amended): decoding the index vector `[1, 0]` with slot vocabulary
`{city: 0, food: 1}`, the candidate batch
`[{city: ["Paris Texas", "London"], food: ["steak"]}]` and empty
`excludeValues` returns the single-element batch
`{city: "London", food: "steak"}` (index 1 selects `London`). -/
theorem c2_thm :
    slotsValuesMatrix2DictCall ["city", "food"] [] [1, 0]
      [[("city", ["Paris Texas", "London"]), ("food", ["steak"])]] =
      .ok [[("city", "London"), ("food", "steak")]] := by
  rfl

/-- C3 (counterexample): on the tag sequence `["X-city"]` the claimed rule
would emit the span `("city", 0, 1)` (it only tests for `O` before opening a
span), but the source extraction raises the tag-format error instead. -/
theorem c3_counterexample :
    extractSpans ["X-city"] = .error "Wrong tag format: X-city" ∧
    specScanAux 0 ["X-city"] = [("city", 0, 1)] ∧
    extractSpans ["X-city"] ≠ .ok (specSpans ["X-city"]) := by
  refine ⟨by rfl, ?_, ?_⟩
  · rw [specScanAux_cons, if_neg (by decide : ¬ ("X-city" = "O"))]
    rw [show specTakeI ("X-city".drop 2) [] = 0 from rfl]
    rw [List.drop_nil, specScanAux_nil]
    decide
  · intro h
    have he : extractSpans ["X-city"] = .error "Wrong tag format: X-city" := by rfl
    rw [he] at h
    exact Except.noConfusion h

/-- C3 (amended): for every tag sequence in which each non-`O` tag carries a
2-character `B-`/`I-` prefix, span extraction computes exactly the claimed
cursor rule (skip `O`; otherwise `slot = tag[2:]`, greedily extend while the
next tag is literally `I-<slot>`, emit `(slot, i, L)`, jump to `i + L`); a
malformed tag instead raises the format error. -/
theorem c3_thm (tags : List String) (hwf : wellFormedTags tags = true) :
    extractSpans tags = .ok (specSpans tags) :=
  extractSpans_eq_spec hwf

/-- C3 (witness): the example tags `["O","O","B-city","I-city"]` are well
formed and extraction yields exactly `[("city", 2, 2)]`. -/
theorem c3_witness :
    wellFormedTags ["O", "O", "B-city", "I-city"] = true ∧
    extractSpans ["O", "O", "B-city", "I-city"] = .ok [("city", 2, 2)] ∧
    Except.ok (specSpans ["O", "O", "B-city", "I-city"]) =
      (.ok [("city", 2, 2)] : Except String (List (String × Nat × Nat))) := by
  refine ⟨by decide, by rfl, ?_⟩
  rw [← c3_thm ["O", "O", "B-city", "I-city"] (by decide)]
  rfl

/-- C4: in the index-mode builder, for every extracted span the span token
texts joined with single spaces form the observed value; on success every
column of the span in the slot's row holds `candidate index + 1` and all
uncovered cells stay 0; when processing reaches a span whose slot is missing
from the candidate set the call raises the slot error, and when the joined
value is missing from that slot's candidates it raises the distinct value
error. -/
theorem c4_thm (slot_vocab : List String) (cs : CandMap) (utt tags : List String)
    (hwf : wellFormedTags tags = true) :
    (∀ mat, buildTokensMatrix slot_vocab (some cs) utt tags = .ok mat →
      (∀ sp ∈ specSpans tags, ∃ vals r,
        lookupC cs sp.1 = some vals ∧ spanValue utt sp ∈ vals ∧
        slot2idx slot_vocab sp.1 = .ok r ∧
        ∀ c, sp.2.1 ≤ c → c < sp.2.1 + sp.2.2 →
          mat r c = vals.indexOf (spanValue utt sp) + 1) ∧
      (∀ r c, (∀ sp ∈ specSpans tags, ¬ coversIdx slot_vocab sp r c) → mat r c = 0)) ∧
    (∀ pre sp post, specSpans tags = pre ++ sp :: post →
      (∀ p ∈ pre, checksPass slot_vocab cs utt p) →
      (lookupC cs sp.1 = none →
        buildTokensMatrix slot_vocab (some cs) utt tags =
          .error ("slot `" ++ sp.1 ++ "` is not in candidates")) ∧
      (∀ vals, lookupC cs sp.1 = some vals → spanValue utt sp ∉ vals →
        buildTokensMatrix slot_vocab (some cs) utt tags =
          .error ("value `" ++ spanValue utt sp ++ "` of slot `" ++ sp.1 ++
            "` is not in candidates"))) := by
  have hbridge := buildTokensMatrix_eq_processSpans hwf slot_vocab cs utt
  constructor
  · intro mat hok
    rw [hbridge] at hok
    constructor
    · intro sp hsp
      rcases processSpans_ok_checks slot_vocab cs utt _ _ _ hok sp hsp with
        ⟨vals, r, hlk, hv, hsi⟩
      refine ⟨vals, r, hlk, hv, hsi, ?_⟩
      intro c hc1 hc2
      exact processSpans_cell_cover slot_vocab cs utt _ _ _ specSpans_pairwise hok
        sp hsp vals r hlk hsi c hc1 hc2
    · intro r c hnc
      rw [processSpans_cell_nocover slot_vocab cs utt _ _ _ r c hok hnc]
      rfl
  · intro pre sp post hsplit hcp
    rw [hbridge, hsplit]
    rcases processSpans_append_of_checks slot_vocab cs utt pre (sp :: post) matZ hcp with
      ⟨m2, hm2⟩
    rw [hm2]
    constructor
    · intro hlk
      exact processSpans_error_slot slot_vocab cs utt sp post m2 hlk
    · intro vals hlk hv
      exact processSpans_error_value slot_vocab cs utt sp post m2 vals hlk hv

/-- C4 (witness): the worked example — slot vocabulary `{city: 0, food: 1}`,
candidates `city -> ["Paris Texas", "London"]`, tokens
`["I","want","Paris","Texas"]`, tags `["O","O","B-city","I-city"]` — fills
row 0, columns 2 and 3, with `1` (= index of `"Paris Texas"` + 1), and the
cells `(0,0)` and `(1,2)` stay 0. -/
theorem c4_witness :
    buildTokensMatrix ["city", "food"]
      (some [("city", ["Paris Texas", "London"]), ("food", ["steak"])])
      ["I", "want", "Paris", "Texas"] ["O", "O", "B-city", "I-city"] = .ok exMatC4 ∧
    exMatC4 0 2 = 1 ∧ exMatC4 0 3 = 1 ∧ exMatC4 0 0 = 0 ∧ exMatC4 1 2 = 0 := by
  have hwf : wellFormedTags ["O", "O", "B-city", "I-city"] = true := by decide
  have hspans : specSpans ["O", "O", "B-city", "I-city"] = [("city", 2, 2)] :=
    spec_spans_of_extract hwf (by rfl)
  have hbuild : buildTokensMatrix ["city", "food"]
      (some [("city", ["Paris Texas", "London"]), ("food", ["steak"])])
      ["I", "want", "Paris", "Texas"] ["O", "O", "B-city", "I-city"] = .ok exMatC4 := by
    rfl
  have hmain := (c4_thm ["city", "food"]
    [("city", ["Paris Texas", "London"]), ("food", ["steak"])]
    ["I", "want", "Paris", "Texas"] ["O", "O", "B-city", "I-city"] hwf).1 exMatC4 hbuild
  have hsp : ("city", 2, 2) ∈ specSpans ["O", "O", "B-city", "I-city"] := by
    rw [hspans]
    exact List.mem_singleton.mpr rfl
  rcases hmain.1 ("city", 2, 2) hsp with ⟨vals, r, hlk, hv, hsi, hcell⟩
  have hvals : vals = ["Paris Texas", "London"] := by
    have : lookupC [("city", ["Paris Texas", "London"]), ("food", ["steak"])] "city" =
        some ["Paris Texas", "London"] := rfl
    rw [this] at hlk
    exact (Option.some.inj hlk).symm
  have hr : r = 0 := by
    have : slot2idx ["city", "food"] "city" = .ok 0 := rfl
    rw [this] at hsi
    exact (Except.ok.inj hsi).symm
  subst hvals hr
  have h2 : exMatC4 0 2 = 1 := by
    have := hcell 2 (by decide) (by decide)
    rw [this]
    decide
  have h3 : exMatC4 0 3 = 1 := by
    have := hcell 3 (by decide) (by decide)
    rw [this]
    decide
  have hz1 : exMatC4 0 0 = 0 := by
    apply hmain.2
    intro sp hsp2
    rw [hspans] at hsp2
    rw [List.mem_singleton.mp hsp2]
    rintro ⟨_, hc, _⟩
    exact absurd hc (by decide)
  have hz2 : exMatC4 1 2 = 0 := by
    apply hmain.2
    intro sp hsp2
    rw [hspans] at hsp2
    rw [List.mem_singleton.mp hsp2]
    rintro ⟨hrow, _, _⟩
    have : slot2idx ["city", "food"] "city" = .ok 0 := rfl
    rw [this] at hrow
    exact absurd (Except.ok.inj hrow) (by decide)
  exact ⟨hbuild, h2, h3, hz1, hz2⟩

/-- C5: in the score builder, a record whose value is absent from its slot's
candidate list writes its score at column 0 without raising; a record lacking
a score writes exactly `1.0`; in both cases the row is the slot's vocabulary
index and the column is the candidate position of the value when present. -/
theorem c5_thm (slot_vocab : List String) (maxNumValues : Nat) (cs : CandMap)
    (rec : SlotRecord) (vals : List String)
    (hmem : rec.slot ∈ slot_vocab)
    (hlk : lookupC cs rec.slot = some vals)
    (hshape : vals.length ≤ maxNumValues + 2) :
    ∃ mat, slotsValuesMatrixBuilderCall slot_vocab maxNumValues [[rec]] [cs] = .ok [mat] ∧
      mat (slot_vocab.indexOf rec.slot)
        (if rec.value ∈ vals then vals.indexOf rec.value else 0) = rec.score.getD 1 ∧
      (rec.value ∉ vals → mat (slot_vocab.indexOf rec.slot) 0 = rec.score.getD 1) ∧
      (rec.score = none →
        mat (slot_vocab.indexOf rec.slot)
          (if rec.value ∈ vals then vals.indexOf rec.value else 0) = 1) := by
  by_cases hv : rec.value ∈ vals
  · refine ⟨setCellQ matQZ (slot_vocab.indexOf rec.slot) (vals.indexOf rec.value)
      (rec.score.getD 1), ?_, ?_, ?_, ?_⟩
    · simp only [slotsValuesMatrixBuilderCall, valuesBatch, valuesOne, slot2idx,
        if_pos hmem, value2idx, hlk, if_pos hv]
      rfl
    · rw [if_pos hv]
      simp [setCellQ]
    · intro hnv
      exact absurd hv hnv
    · intro hsn
      rw [if_pos hv]
      simp [setCellQ, hsn]
  · refine ⟨setCellQ matQZ (slot_vocab.indexOf rec.slot) 0 (rec.score.getD 1),
      ?_, ?_, ?_, ?_⟩
    · simp only [slotsValuesMatrixBuilderCall, valuesBatch, valuesOne, slot2idx,
        if_pos hmem, value2idx, hlk, if_neg hv]
      rfl
    · rw [if_neg hv]
      simp [setCellQ]
    · intro _
      simp [setCellQ]
    · intro hsn
      rw [if_neg hv]
      simp [setCellQ, hsn]

/-- C5 (witness): the record `{slot: city, value: X}` (no score) with
candidates `city -> ["A"]` writes `1.0` at row 0, column 0, without raising. -/
theorem c5_witness :
    ∃ mat, slotsValuesMatrixBuilderCall ["city"] 3
      [[{ slot := "city", value := "X", score := none }]] [[("city", ["A"])]] =
      .ok [mat] ∧ mat 0 0 = 1 := by
  rcases c5_thm ["city"] 3 [("city", ["A"])]
    { slot := "city", value := "X", score := none } ["A"]
    (by decide) rfl (by decide) with ⟨mat, hcall, _, habs, hone⟩
  refine ⟨mat, hcall, ?_⟩
  have h1 := habs (by decide)
  have : (List.indexOf "city" ["city"]) = 0 := by decide
  rw [this] at h1
  exact h1

/-- C6: when every decoded slot has a nonempty candidate list, the decoder
returns exactly the clamped pairs filtered by `excludeValues`: each raw index
out of range for `C_s` is clamped to 0, mapped to `C_s[index]` (`clampVal`),
and the pair is kept only if the value is not excluded. -/
theorem c6_thm (slot_vocab ex : List String) (vec : List Nat) (cs : CandMap)
    (hlen : vec.length ≤ slot_vocab.length)
    (hnd : slot_vocab.Nodup)
    (hgood : ∀ p ∈ slot_vocab.zip vec, (lookupC cs p.1).getD [] ≠ []) :
    slotsValuesMatrix2DictCall slot_vocab ex vec [cs] =
      .ok [(decodedPairs cs slot_vocab vec).filter (fun p => decide (p.2 ∉ ex))] := by
  have hgood2 : ∀ p ∈ slot_vocab.zip vec,
      ∃ vals, lookupC cs p.1 = some vals ∧ vals ≠ [] := by
    intro p hp
    have hg := hgood p hp
    cases h : lookupC cs p.1 with
    | none => rw [h] at hg; simp at hg
    | some vals =>
      rw [h] at hg
      exact ⟨vals, rfl, by simpa using hg⟩
  have hnd2 : ((slot_vocab.zip vec).map Prod.fst).Nodup :=
    (map_fst_zip_sublist slot_vocab vec).nodup hnd
  simp only [slotsValuesMatrix2DictCall]
  rw [decodeLoop_closed cs ex vec slot_vocab [] hlen hgood2 hnd2 (by simp)]
  rfl

/-- C6 (witness): vocabulary `{city: 0, food: 1}`, vector `[5, 0]`,
candidates `city -> ["Paris Texas","London"], food -> ["steak"]`,
`excludeValues = ["steak"]`: index 5 is clamped to 0 (`Paris Texas`), and the
`food -> steak` pair is filtered out. -/
theorem c6_witness :
    slotsValuesMatrix2DictCall ["city", "food"] ["steak"] [5, 0]
      [[("city", ["Paris Texas", "London"]), ("food", ["steak"])]] =
      .ok [[("city", "Paris Texas")]] := by
  have h := c6_thm ["city", "food"] ["steak"] [5, 0]
    [("city", ["Paris Texas", "London"]), ("food", ["steak"])]
    (by decide) (by decide) (by decide)
  rw [h]
  rfl

/-- C7: a non-`O` tag lacking the 2-character BIO prefix makes `tag2slot`
raise the format error naming the tag; the delexicalizer and the span
extraction raise a format error naming a malformed tag; and the
span-extracting builder never returns a matrix (no malformed tag is silently
treated as `O` or as opening a span). -/
theorem c7_thm (t : String) (utt tags : List String) (slot_vocab : List String)
    (cands : Option CandMap)
    (hm : malformedTag t = true) (hmem : t ∈ tags) (hlen : utt.length = tags.length) :
    tag2slot t = .error ("Wrong tag format: " ++ t) ∧
    (∃ t2, malformedTag t2 = true ∧
      delexicalizorCall [utt] [tags] = .error ("Wrong tag format: " ++ t2)) ∧
    (∃ t2, malformedTag t2 = true ∧
      extractSpans tags = .error ("Wrong tag format: " ++ t2)) ∧
    isError (buildTokensMatrix slot_vocab cands utt tags) = true := by
  refine ⟨tag2slot_malformed hm, ?_, ?_, ?_⟩
  · rcases mem_zip_right utt tags hlen t hmem with ⟨w, hw⟩
    rcases delexOne_malformed (utt.zip tags) ⟨(w, t), hw, hm⟩ with ⟨t2, h1, h2⟩
    refine ⟨t2, h1, ?_⟩
    simp only [delexicalizorCall, List.zip_cons_cons, List.zip_nil_right, delexBatch, h2]
  · exact extractSpans_malformed ⟨t, hmem, hm⟩
  · rcases mem_getD_of_mem hmem with ⟨j, hjl, hje⟩
    have := buildLoop_malformed slot_vocab cands utt tags tags.length 0 matZ (by omega)
      ⟨j, by omega, hjl, by rw [hje]; exact hm⟩
    simpa [buildTokensMatrix] using this

/-- C7 (witness): the malformed tag `"X-city"`. -/
theorem c7_witness :
    tag2slot "X-city" = .error "Wrong tag format: X-city" ∧
    (∃ t2, malformedTag t2 = true ∧
      delexicalizorCall [["w"]] [["X-city"]] = .error ("Wrong tag format: " ++ t2)) ∧
    (∃ t2, malformedTag t2 = true ∧
      extractSpans ["X-city"] = .error ("Wrong tag format: " ++ t2)) ∧
    isError (buildTokensMatrix ["city"] none ["w"] ["X-city"]) = true := by
  exact c7_thm "X-city" ["w"] ["X-city"] ["city"] none (by decide)
    (by decide) (by decide)

/-- C8: whenever the candidate-set batch does not have length exactly 1, each
of the three components — the token/index builder, the score builder and the
decoder — raises the unsupported-batch-shape error. -/
theorem c8_thm (slot_vocab : List String)
    (utterances tags : List (List String)) (candsT : List (Option CandMap))
    (maxNumValues : Nat) (slots : List (List SlotRecord)) (candsV : List CandMap)
    (exclude : List String) (vec : List Nat) (candsD : List CandMap)
    (h1 : candsT.length ≠ 1) (h2 : candsV.length ≠ 1) (h3 : candsD.length ≠ 1) :
    slotsTokensMatrixBuilderCall slot_vocab utterances tags candsT =
      .error "not implemented for candidates with length > 1" ∧
    slotsValuesMatrixBuilderCall slot_vocab maxNumValues slots candsV =
      .error "not implemented for candidates with length > 1" ∧
    slotsValuesMatrix2DictCall slot_vocab exclude vec candsD =
      .error "not implemented for candidates with length > 1" := by
  refine ⟨?_, ?_, ?_⟩
  · rcases candsT with _ | ⟨c, _ | ⟨c2, rest⟩⟩
    · rfl
    · exact absurd rfl h1
    · rfl
  · rcases candsV with _ | ⟨c, _ | ⟨c2, rest⟩⟩
    · rfl
    · exact absurd rfl h2
    · rfl
  · rcases candsD with _ | ⟨c, _ | ⟨c2, rest⟩⟩
    · rfl
    · exact absurd rfl h3
    · rfl

/-- C8 (witness): length-2 candidate batches make all three components raise
the unsupported-batch-shape error. -/
theorem c8_witness :
    slotsTokensMatrixBuilderCall ["city"] [["w"]] [["O"]] [some [], some []] =
      .error "not implemented for candidates with length > 1" ∧
    slotsValuesMatrixBuilderCall ["city"] 3 [[]] [[], []] =
      .error "not implemented for candidates with length > 1" ∧
    slotsValuesMatrix2DictCall ["city"] [] [0] [[], []] =
      .error "not implemented for candidates with length > 1" :=
  c8_thm ["city"] [["w"]] [["O"]] [some [], some []] 3 [[]] [[], []] [] [0] [[], []]
    (by decide) (by decide) (by decide)

/-- C9 (counterexample): with the default candidate batch, an utterance whose
only non-`O` tag is the malformed `"X-city"` raises the tag-format error, not
the slot-not-in-candidates error the claim names for any utterance containing
a non-`O` tag. -/
theorem c9_counterexample :
    slotsTokensMatrixBuilderCall ["city"] [["w"]] [["X-city"]] [some []] =
      .error "Wrong tag format: X-city" ∧
    ¬ ∃ s, (Except.error "Wrong tag format: X-city" : Except String (List Mat)) =
      .error ("slot `" ++ s ++ "` is not in candidates") := by
  constructor
  · rfl
  · rintro ⟨s, hs⟩
    have heq := Except.error.inj hs
    have hlen := congrArg String.length heq
    simp only [String.length_append] at hlen
    have h1 : ("Wrong tag format: X-city" : String).length = 24 := by decide
    have h2 : ("slot `" : String).length = 6 := by decide
    have h3 : ("` is not in candidates" : String).length = 22 := by decide
    rw [h1, h2, h3] at hlen
    omega

/-- C9 (amended): the default candidate batch (`[[]]`, a length-1 batch
holding an empty container) does not give presence-mask mode: for any
utterance with well-formed tags at least one of which is not `O`, the call
raises the slot-not-in-candidates error for the first span's slot (an
utterance whose first non-`O` tag is malformed raises the tag-format error
instead).  The presence-mask branch — `1` at the span's first column only,
the rest of the span left 0 — is reached exactly when the single batch
element is `None` (`[none]`; a bare `None` instead of a batch fails the
length check on an unsized object in the source). -/
theorem c9_thm (slot_vocab : List String) (utt tags : List String)
    (hwf : wellFormedTags tags = true) :
    ((∃ t ∈ tags, t ≠ "O") → ∃ s,
      slotsTokensMatrixBuilderCall slot_vocab [utt] [tags] [some []] =
        .error ("slot `" ++ s ++ "` is not in candidates")) ∧
    (∀ mat, slotsTokensMatrixBuilderCall slot_vocab [utt] [tags] [none] = .ok [mat] →
      (∀ sp ∈ specSpans tags, ∃ r, slot2idx slot_vocab sp.1 = .ok r ∧
        mat r sp.2.1 = 1 ∧ ∀ c, sp.2.1 < c → c < sp.2.1 + sp.2.2 → mat r c = 0) ∧
      (∀ r c, (∀ sp ∈ specSpans tags, ¬ maskCovers slot_vocab sp r c) → mat r c = 0)) := by
  constructor
  · intro hex
    have hne := specScanAux_ne_nil tags 0 hex
    rcases List.exists_cons_of_ne_nil hne with ⟨sp, rest, hsp⟩
    refine ⟨sp.1, ?_⟩
    rw [slotsTokensCall_one]
    have hb := buildTokensMatrix_eq_processSpans hwf slot_vocab [] utt
    rw [hb]
    have hspans : specSpans tags = sp :: rest := hsp
    rw [hspans]
    rw [processSpans_error_slot slot_vocab [] utt sp rest matZ rfl]
  · intro mat hcall
    have hbuild : buildTokensMatrix slot_vocab none utt tags = .ok mat := by
      rw [slotsTokensCall_one] at hcall
      cases hb : buildTokensMatrix slot_vocab none utt tags with
      | error e => rw [hb] at hcall; exact absurd hcall (by simp)
      | ok m =>
        rw [hb] at hcall
        simp only at hcall
        have := Except.ok.inj hcall
        rw [List.cons.injEq] at this
        rw [this.1]
    rw [buildTokensMatrix_eq_processSpansMask hwf slot_vocab utt] at hbuild
    have hlen1 : ∀ sp ∈ specSpans tags, 1 ≤ sp.2.2 := by
      intro sp hsp
      exact (specSpans_bounds sp hsp).2
    constructor
    · intro sp hsp
      rcases processSpansMask_ok_rows slot_vocab _ _ _ hbuild sp hsp with ⟨r, hsi⟩
      refine ⟨r, hsi, ?_, ?_⟩
      · exact processSpansMask_cell_cover slot_vocab _ _ _ specSpans_pairwise hlen1
          hbuild sp hsp r hsi
      · intro c hc1 hc2
        have hnc : ∀ q ∈ specSpans tags, ¬ maskCovers slot_vocab q r c := by
          rcases List.append_of_mem hsp with ⟨pre, post, hsplit⟩
          have hpw := @specSpans_pairwise tags
          rw [hsplit] at hpw
          rcases List.pairwise_append.mp hpw with ⟨_, hcons, hcross⟩
          have hsp_post := (List.pairwise_cons.mp hcons).1
          intro q hq ⟨_, hqc⟩
          rw [hsplit] at hq
          rcases List.mem_append.mp hq with hq | hq
          · have hrel := hcross q hq sp (List.mem_cons_self sp post)
            have hql : 1 ≤ q.2.2 := hlen1 q (by rw [hsplit]; exact List.mem_append_left _ hq)
            omega
          · rcases List.mem_cons.mp hq with rfl | hq
            · omega
            · have hrel := hsp_post q hq
              omega
        rw [processSpansMask_cell_nocover slot_vocab _ _ _ r c hbuild hnc]
        rfl
    · intro r c hnc
      rw [processSpansMask_cell_nocover slot_vocab _ _ _ r c hbuild hnc]
      rfl

/-- C9 (witness): with vocabulary `["city"]`, tokens `["a", "b"]` and tags
`["B-city", "O"]`, the default batch raises the slot-not-in-candidates error,
while the `[none]` batch builds the mask matrix with `1` at `(0, 0)`. -/
theorem c9_witness :
    (∃ s, slotsTokensMatrixBuilderCall ["city"] [["a", "b"]] [["B-city", "O"]] [some []] =
      .error ("slot `" ++ s ++ "` is not in candidates")) ∧
    setCellN matZ 0 0 1 0 0 = 1 := by
  have hwf : wellFormedTags ["B-city", "O"] = true := by decide
  constructor
  · exact (c9_thm ["city"] ["a", "b"] ["B-city", "O"] hwf).1
      ⟨"B-city", by decide, by decide⟩
  · have hspans : specSpans ["B-city", "O"] = [("city", 0, 1)] :=
      spec_spans_of_extract hwf (by rfl)
    have hcall : slotsTokensMatrixBuilderCall ["city"] [["a", "b"]] [["B-city", "O"]]
        [none] = .ok [setCellN matZ 0 0 1] := by
      rw [slotsTokensCall_one]
      rfl
    have hmask := (c9_thm ["city"] ["a", "b"] ["B-city", "O"] hwf).2
      (setCellN matZ 0 0 1) hcall
    have hsp : ("city", 0, 1) ∈ specSpans ["B-city", "O"] := by
      rw [hspans]
      exact List.mem_singleton.mpr rfl
    rcases hmask.1 ("city", 0, 1) hsp with ⟨r, hsi, hone, _⟩
    have hr : r = 0 := by
      have : slot2idx ["city"] "city" = .ok 0 := rfl
      rw [this] at hsi
      exact (Except.ok.inj hsi).symm
    rw [hr] at hone
    exact hone

/-- C10: with a vector of one entry per vocabulary slot, the decoder fails
whenever some slot is missing from the candidate set or has an empty
candidate list (even for raw index 0), and succeeds whenever every slot
resolves to a nonempty candidate list. -/
theorem c10_thm (slot_vocab ex : List String) (vec : List Nat) (cs : CandMap)
    (hlen : vec.length = slot_vocab.length) :
    ((∃ p ∈ slot_vocab.zip vec, lookupC cs p.1 = none ∨ lookupC cs p.1 = some []) →
      isError (slotsValuesMatrix2DictCall slot_vocab ex vec [cs]) = true) ∧
    ((∀ p ∈ slot_vocab.zip vec, (lookupC cs p.1).getD [] ≠ []) →
      ∃ d, slotsValuesMatrix2DictCall slot_vocab ex vec [cs] = .ok [d]) := by
  constructor
  · intro hbad
    simp only [slotsValuesMatrix2DictCall]
    have hloop := decodeLoop_bad cs ex vec slot_vocab [] hbad
    cases hd : decodeLoop cs ex slot_vocab vec [] with
    | error e => rfl
    | ok d =>
      rw [hd] at hloop
      exact absurd hloop (by simp [isError])
  · intro hgood
    have hgood2 : ∀ p ∈ slot_vocab.zip vec,
        ∃ vals, lookupC cs p.1 = some vals ∧ vals ≠ [] := by
      intro p hp
      have hg := hgood p hp
      cases h : lookupC cs p.1 with
      | none => rw [h] at hg; simp at hg
      | some vals =>
        rw [h] at hg
        exact ⟨vals, rfl, by simpa using hg⟩
    rcases decodeLoop_ok_exists cs ex vec slot_vocab [] (by omega) hgood2 with ⟨d, hd⟩
    refine ⟨d, ?_⟩
    simp only [slotsValuesMatrix2DictCall]
    rw [hd]
    rfl

/-- C10 (witness): with vocabulary `["a", "b"]` and vector `[0, 0]`, a
candidate set lacking `b` makes the decode fail, while one holding nonempty
lists for both slots decodes successfully. -/
theorem c10_witness :
    isError (slotsValuesMatrix2DictCall ["a", "b"] [] [0, 0] [[("a", ["x"])]]) = true ∧
    ∃ d, slotsValuesMatrix2DictCall ["a", "b"] [] [0, 0]
      [[("a", ["x"]), ("b", ["y"])]] = .ok [d] := by
  constructor
  · exact (c10_thm ["a", "b"] [] [0, 0] [("a", ["x"])] rfl).1
      ⟨("b", 0), by decide, Or.inl rfl⟩
  · exact (c10_thm ["a", "b"] [] [0, 0] [("a", ["x"]), ("b", ["y"])] rfl).2
      (by decide)
